import Mathlib

/-!
# WatchDog core: shallow embedding and verification

This file embeds the core of the WatchDog repository — the Xray log
normalisation pipeline (`watchdog/collectors/xray_log_watcher.py`) and the
bucketed metrics aggregator (`watchdog/metrics/aggregator.py`) — as
executable Lean definitions, and proves (or refutes) the specification
claims about them.

Modelling conventions:
* Python strings are modelled as `List Char` (`Str`); `str.lower`,
  `str.isdigit`, slicing and searching are modelled character by character.
  Python's `\d`/`isdigit` are modelled as ASCII digits (the log lines in
  scope are ASCII).
* Python dicts are modelled as insertion-ordered association lists with
  first-occurrence lookup; the mutation primitives below mirror
  `d[k] = v`, `d.get(k)` and `d.setdefault(k, v)` exactly, including
  insertion order.
* `datetime` values are modelled as integer Unix seconds; `timedelta`
  values as integer seconds (microseconds where sub-second resolution is
  what a claim is about).
* Python 3 `/` on integers is *float* division: it is modelled exactly as
  correct rounding of the rational quotient to a binary64 significand
  (round-to-nearest, ties-to-even), which is what CPython implements for
  `int.__truediv__`, followed by `int()` truncation.  Overflow to
  infinity and subnormals are outside the value ranges modelled here.
* Library calls whose internals are irrelevant to the claims
  (`json.loads`, the free-text line regular expressions, timestamp
  parsing) are abstracted as explicit function parameters; everything
  downstream of them is embedded from the source.
-/

namespace WatchDog

/-- Python `str` modelled as a list of characters. -/
abbrev Str := List Char

/-- ASCII lowercase of one character, mirroring `str.lower` on ASCII input. -/
def lowerChar (c : Char) : Char := c.toLower

/-- `s.lower()` on ASCII strings. -/
def lowerStr (s : Str) : Str := s.map lowerChar

/-- ASCII digit test; models Python's `\d` / `str.isdigit` on ASCII text. -/
def isDig (c : Char) : Bool := '0' ≤ c && c ≤ '9'

/-- `s.isdigit()`: non-empty and all digits. -/
def allDigits (s : Str) : Bool := !s.isEmpty && s.all isDig

/-- Base-10 value of a digit string, as produced by Python `int(s)`. -/
def natOfDigits (s : Str) : ℕ :=
  s.foldl (fun n c => n * 10 + (c.toNat - '0'.toNat)) 0

/-- `s.strip()` restricted to ASCII whitespace. -/
def stripStr (s : Str) : Str :=
  (s.dropWhile Char.isWhitespace).reverse.dropWhile Char.isWhitespace |>.reverse

section AssocList

variable {κ : Type} {α : Type} [DecidableEq κ]

/-- `d.get(k)`: first binding of `k`, if any. -/
def alookup : List (κ × α) → κ → Option α
  | [], _ => none
  | (k', v) :: t, k => if k' = k then some v else alookup t k

/-- `d[k] = v`: replace the binding in place if present, else append. -/
def aset : List (κ × α) → κ → α → List (κ × α)
  | [], k, v => [(k, v)]
  | (k', w) :: t, k, v => if k' = k then (k, v) :: t else (k', w) :: aset t k v

/-- `d.setdefault(k, dflt)` followed by an in-place update of the entry with
`f`; mirrors the aggregator's `setdefault` + mutate pattern. -/
def aupd (f : α → α) (dflt : α) : List (κ × α) → κ → List (κ × α)
  | [], k => [(k, f dflt)]
  | (k', v) :: t, k =>
    if k' = k then (k', f v) :: t else (k', v) :: aupd f dflt t k

theorem alookup_aset_self (m : List (κ × α)) (k : κ) (v : α) :
    alookup (aset m k v) k = some v := by
  induction m with
  | nil => simp [aset, alookup]
  | cons p t ih =>
    obtain ⟨k', w⟩ := p
    by_cases h : k' = k <;> simp [aset, alookup, h, ih]

theorem alookup_aset_ne (m : List (κ × α)) (k k' : κ) (v : α) (h : k ≠ k') :
    alookup (aset m k v) k' = alookup m k' := by
  induction m with
  | nil => simp [aset, alookup, h]
  | cons p t ih =>
    obtain ⟨k₀, w⟩ := p
    by_cases h₀ : k₀ = k
    · subst h₀; simp [aset, alookup, h, ih]
    · simp [aset, alookup, h₀, ih]

theorem alookup_aupd_self (f : α → α) (d : α) (m : List (κ × α)) (k : κ) :
    alookup (aupd f d m k) k = some (f ((alookup m k).getD d)) := by
  induction m with
  | nil => simp [aupd, alookup]
  | cons p t ih =>
    obtain ⟨k', v⟩ := p
    by_cases h : k' = k <;> simp [aupd, alookup, h, ih]

theorem alookup_aupd_ne (f : α → α) (d : α) (m : List (κ × α)) (k k' : κ)
    (h : k ≠ k') : alookup (aupd f d m k) k' = alookup m k' := by
  induction m with
  | nil => simp [aupd, alookup, h]
  | cons p t ih =>
    obtain ⟨k₀, v⟩ := p
    by_cases h₀ : k₀ = k <;> simp [aupd, alookup, h₀, ih]
    · subst h₀; simp [alookup, h]

theorem mem_aupd (f : α → α) (d : α) (m : List (κ × α)) (k : κ) (p : κ × α)
    (hp : p ∈ aupd f d m k) :
    p ∈ m ∨ (p.1 = k ∧ ∃ w, (w = d ∨ (k, w) ∈ m) ∧ p.2 = f w) := by
  induction m with
  | nil =>
    simp only [aupd, List.mem_singleton] at hp
    subst hp; exact Or.inr ⟨rfl, d, Or.inl rfl, rfl⟩
  | cons q t ih =>
    obtain ⟨k₀, v⟩ := q
    by_cases h₀ : k₀ = k
    · subst h₀
      rw [aupd, if_pos rfl] at hp
      rcases List.mem_cons.mp hp with hp' | hp'
      · subst hp'; exact Or.inr ⟨rfl, v, Or.inr (List.mem_cons_self _ _), rfl⟩
      · exact Or.inl (List.mem_cons_of_mem _ hp')
    · rw [aupd, if_neg h₀] at hp
      rcases List.mem_cons.mp hp with hp' | hp'
      · subst hp'; exact Or.inl (List.mem_cons_self _ _)
      · rcases ih hp' with h | ⟨hk, w, hw, hv⟩
        · exact Or.inl (List.mem_cons_of_mem _ h)
        · refine Or.inr ⟨hk, w, ?_, hv⟩
          rcases hw with hw | hw
          · exact Or.inl hw
          · exact Or.inr (List.mem_cons_of_mem _ hw)

theorem mem_aupd_cases (f : α → α) (d : α) (m : List (κ × α)) (k : κ)
    (p : κ × α) (hp : p ∈ aupd f d m k) :
    p ∈ m ∨ (p = (k, f d) ∧ alookup m k = none) ∨
      (∃ w, (k, w) ∈ m ∧ p = (k, f w)) := by
  induction m with
  | nil =>
    simp only [aupd, List.mem_singleton] at hp
    exact Or.inr (Or.inl ⟨hp, rfl⟩)
  | cons q t ih =>
    obtain ⟨k₀, v⟩ := q
    by_cases h₀ : k₀ = k
    · subst h₀
      rw [aupd, if_pos rfl] at hp
      rcases List.mem_cons.mp hp with hp' | hp'
      · exact Or.inr (Or.inr ⟨v, List.mem_cons_self _ _, hp'⟩)
      · exact Or.inl (List.mem_cons_of_mem _ hp')
    · rw [aupd, if_neg h₀] at hp
      rcases List.mem_cons.mp hp with hp' | hp'
      · subst hp'; exact Or.inl (List.mem_cons_self _ _)
      · rcases ih hp' with h | ⟨heq, hnone⟩ | ⟨w, hw, heq⟩
        · exact Or.inl (List.mem_cons_of_mem _ h)
        · refine Or.inr (Or.inl ⟨heq, ?_⟩)
          rw [alookup, if_neg h₀]
          exact hnone
        · exact Or.inr (Or.inr ⟨w, List.mem_cons_of_mem _ hw, heq⟩)

theorem alookup_aupd_none (f : α → α) (d : α) (m : List (κ × α)) (k k' : κ)
    (h : alookup (aupd f d m k) k' = none) : alookup m k' = none := by
  by_cases hk : k = k'
  · subst hk
    rw [alookup_aupd_self] at h
    exact absurd h (by simp)
  · rw [alookup_aupd_ne _ _ _ _ _ hk] at h
    exact h

end AssocList

/-! ## Address extraction (`XrayLogWatcher._extract_address`, `_ADDR_PATTERN`)

`_ADDR_PATTERN = re.compile(r"\[(?P<ipv6>[^\]]+)\]|(?P<ipv4>\d+\.\d+\.\d+\.\d+)")`
and `re.search` semantics: positions are scanned left to right; at each
position the `[...]` alternative is tried before the dotted-quad one. -/

/-- Attempt of the `\[[^\]]+\]` alternative at the head of `s`; returns the
bracket contents (the `ipv6` group). -/
def matchBracketAt : Str → Option Str
  | '[' :: rest =>
    let inner := rest.takeWhile (fun c => c ≠ ']')
    if inner.isEmpty then none
    else if (rest.drop inner.length).head? = some ']' then some inner else none
  | _ => none

/-- One `\d+` run followed by a literal `.`; returns the digits and what
follows the dot. -/
def digitsDot (s : Str) : Option (Str × Str) :=
  let ds := s.takeWhile isDig
  if ds.isEmpty then none
  else
    match s.drop ds.length with
    | '.' :: rest => some (ds, rest)
    | _ => none

/-- Attempt of the `\d+\.\d+\.\d+\.\d+` alternative at the head of `s`;
returns the matched text (the `ipv4` group). -/
def matchQuadAt (s : Str) : Option Str := do
  let (d₁, s₁) ← digitsDot s
  let (d₂, s₂) ← digitsDot s₁
  let (d₃, s₃) ← digitsDot s₂
  let d₄ := s₃.takeWhile isDig
  if d₄.isEmpty then none
  else pure (d₁ ++ '.' :: d₂ ++ '.' :: d₃ ++ '.' :: d₄)

/-- `_ADDR_PATTERN.search(s)`: the match at the leftmost position where an
alternative matches, with the bracket alternative preferred at equal
positions; returns the non-`None` group, i.e. `ipv6` contents or the
`ipv4` text. -/
def findAddr : Str → Option Str
  | [] => none
  | c :: rest =>
    match matchBracketAt (c :: rest) with
    | some a => some a
    | none =>
      match matchQuadAt (c :: rest) with
      | some q => some q
      | none => findAddr rest

/-- `c in s` membership test (character). -/
def strContains (s : Str) (c : Char) : Bool := s.any (fun x => x = c)

/-- `XrayLogWatcher._extract_address`. -/
def extractAddress (value : Str) : Str :=
  match findAddr value with
  | some a => a
  | none =>
    if strContains value ':' then value.takeWhile (fun c => c ≠ ':') else value

/-! ## Target splitting (`XrayLogWatcher._split_target_fields`) -/

/-- `a.startswith(b)` for the model strings (character-by-character). -/
def strHasPre : Str → Str → Bool
  | [], _ => true
  | _ :: _, [] => false
  | a :: as, b :: bs => if a = b then strHasPre as bs else false

/-- The transport-stripping step: `value.partition(":")` applied when `value`
starts with `tcp:`, `udp:` or `unix:`. -/
def stripTransport (value : Str) : Str × Str :=
  if strHasPre "tcp:".toList value ∨ strHasPre "udp:".toList value ∨
      strHasPre "unix:".toList value then
    let tr := value.takeWhile (fun c => c ≠ ':')
    (tr, value.drop (tr.length + 1))
  else ([], value)

/-- The host/port part of `_split_target_fields`, applied to the remainder
after transport stripping: `remainder.startswith("[")` selects the bracketed
branch (`find("]")`, slicing, `rest[1:].isdigit()`); otherwise a last-colon
`rpartition` with an all-digits check on the tail. -/
def splitHostPort (remainder : Str) : Str × Option ℕ :=
  if remainder.head? = some '[' then
    let t := remainder.tail
    let inner := t.takeWhile (fun c => c ≠ ']')
    if (t.drop inner.length).head? = some ']' then
      let rest := t.drop (inner.length + 1)
      if rest.head? = some ':' ∧ allDigits rest.tail then
        (inner, some (natOfDigits rest.tail))
      else (inner, none)
    else (remainder, none)
  else if strContains remainder ':' then
    let tl := (remainder.reverse.takeWhile (fun c => c ≠ ':')).reverse
    let hd := remainder.take (remainder.length - tl.length - 1)
    if allDigits tl then (hd, some (natOfDigits tl)) else (remainder, none)
  else (remainder, none)

/-- `XrayLogWatcher._split_target_fields`. -/
def splitTargetFields (value : Str) : Str × Str × Option ℕ :=
  let (transport, remainder) := stripTransport value
  let (host, port) := splitHostPort remainder
  (transport, host, port)

/-! ## List helper lemmas for the parser proofs -/

theorem takeWhile_ne_append (a : Char) (l rest : Str) (hl : a ∉ l) :
    (l ++ a :: rest).takeWhile (fun c => c ≠ a) = l := by
  induction l with
  | nil => simp
  | cons c t ih =>
    have hca : c ≠ a := fun h => hl (h ▸ List.mem_cons_self c t)
    have ht : a ∉ t := fun h => hl (List.mem_cons_of_mem _ h)
    have hpc : decide (c ≠ a) = true := by simp [hca]
    simp only [List.cons_append, List.takeWhile_cons, hpc, if_true]
    exact congrArg (c :: ·) (ih ht)

theorem contains_of_middle (a : Char) (pre suf : Str) :
    strContains (pre ++ a :: suf) a = true := by
  simp [strContains]

/-! ## The leftmost-match reading of `_ADDR_PATTERN.search` -/

/-- The regex alternation attempted at offset `i` of `s`: bracket alternative
first, then the dotted quad. -/
def addrMatchAt (s : Str) (i : ℕ) : Option Str :=
  match matchBracketAt (s.drop i) with
  | some a => some a
  | none => matchQuadAt (s.drop i)

/-- Declarative `re.search` semantics: the match at the least offset where
either alternative matches (bracket preferred only at equal offsets). -/
def leftmostAddrMatch (s : Str) : Option Str :=
  ((List.range s.length).find? (fun i => (addrMatchAt s i).isSome)).bind
    (addrMatchAt s)

theorem findAddr_eq_leftmost : ∀ s, findAddr s = leftmostAddrMatch s
  | [] => rfl
  | c :: rest => by
    have ih := findAddr_eq_leftmost rest
    unfold leftmostAddrMatch
    rw [List.length_cons, List.range_succ_eq_map, List.find?_cons]
    cases hb : matchBracketAt (c :: rest) with
    | some a =>
      have hp : (addrMatchAt (c :: rest) 0).isSome = true := by
        simp [addrMatchAt, hb]
      simp [findAddr, hb, hp, addrMatchAt]
    | none =>
      cases hq : matchQuadAt (c :: rest) with
      | some q =>
        have hp : (addrMatchAt (c :: rest) 0).isSome = true := by
          simp [addrMatchAt, hb, hq]
        simp [findAddr, hb, hq, hp, addrMatchAt]
      | none =>
        have hp : (addrMatchAt (c :: rest) 0).isSome = false := by
          simp [addrMatchAt, hb, hq]
        have hshift : ∀ i : ℕ, addrMatchAt (c :: rest) (i + 1) = addrMatchAt rest i :=
          fun i => rfl
        rw [show findAddr (c :: rest) = findAddr rest by simp [findAddr, hb, hq]]
        rw [ih]
        unfold leftmostAddrMatch
        simp only [hp, List.find?_map]
        have hcomp :
            ((fun i => (addrMatchAt (c :: rest) i).isSome) ∘ Nat.succ) =
              fun i => (addrMatchAt rest i).isSome := by
          funext i; simp [Function.comp, hshift]
        rw [hcomp]
        cases hfind : (List.range rest.length).find?
            (fun i => (addrMatchAt rest i).isSome) with
        | none => simp
        | some j => simp [hshift]

/-! ## Claim C5 — `_split_target_fields` behaviour -/

/-- **C5.** `split_target` strips a leading `tcp:`/`udp:`/`unix:` transport
tag; a bracketed remainder yields the bracket contents as host with a
trailing `:digits` port; otherwise the remainder is split on the last colon
with the tail accepted as port only when all-digits, else the whole
remainder is the host; a present port is the base-10 value of the digits and
absence is `none` (`Option ℕ`), so port `0` — as in
`sp.v2.udp-over-tcp.arpa:0` — is distinct from "no port" and no sentinel is
used. -/
theorem splitTargetFields_spec :
    (∀ r, splitTargetFields ("tcp:".toList ++ r) = ("tcp".toList, splitHostPort r)) ∧
    (∀ r, splitTargetFields ("udp:".toList ++ r) = ("udp".toList, splitHostPort r)) ∧
    (∀ r, splitTargetFields ("unix:".toList ++ r) = ("unix".toList, splitHostPort r)) ∧
    (∀ h rest, (']' ∈ h → False) →
        splitHostPort ('[' :: (h ++ ']' :: rest)) =
          (h, if rest.head? = some ':' ∧ allDigits rest.tail then
                some (natOfDigits rest.tail) else none)) ∧
    (∀ pre suf, (':' ∈ suf → False) → (pre ++ ':' :: suf).head? ≠ some '[' →
        splitHostPort (pre ++ ':' :: suf) =
          if allDigits suf then (pre, some (natOfDigits suf))
          else (pre ++ ':' :: suf, none)) ∧
    (∀ r, strContains r ':' = false → r.head? ≠ some '[' →
        splitHostPort r = (r, none)) ∧
    splitTargetFields "sp.v2.udp-over-tcp.arpa:0".toList =
      ([], "sp.v2.udp-over-tcp.arpa".toList, some 0) ∧
    (some 0 : Option ℕ) ≠ (none : Option ℕ) := by
  refine ⟨fun r => rfl, fun r => rfl, fun r => rfl, ?_, ?_, ?_, by decide, by decide⟩
  · intro h rest hne
    have hmem : ']' ∉ h := hne
    have htake : (h ++ ']' :: rest).takeWhile (fun c => c ≠ ']') = h :=
      takeWhile_ne_append ']' h rest hmem
    have hdropped : (h ++ ']' :: rest).drop h.length = ']' :: rest := by
      simpa using List.drop_left h (']' :: rest)
    have hdropped' : (h ++ ']' :: rest).drop (h.length + 1) = rest := by
      rw [← List.drop_drop, hdropped]
      rfl
    by_cases hc : rest.head? = some ':' ∧ allDigits rest.tail = true
    · simp only [splitHostPort, List.head?_cons, List.tail_cons, htake,
        hdropped, hdropped', if_pos hc]
      simp [hc]
    · simp only [splitHostPort, List.head?_cons, List.tail_cons, htake,
        hdropped, hdropped', if_neg hc]
      simp [hc]
  · intro pre suf hsuf hhead
    have hcontains : strContains (pre ++ ':' :: suf) ':' = true :=
      contains_of_middle ':' pre suf
    have hrev : (pre ++ ':' :: suf).reverse = suf.reverse ++ ':' :: pre.reverse := by
      simp
    have hsuf' : ':' ∉ suf.reverse := fun h => hsuf (List.mem_reverse.mp h)
    have htake : (pre ++ ':' :: suf).reverse.takeWhile (fun c => c ≠ ':') =
        suf.reverse := by
      rw [hrev]; exact takeWhile_ne_append ':' suf.reverse pre.reverse hsuf'
    have hlen : (pre ++ ':' :: suf).length - suf.length - 1 = pre.length := by
      simp only [List.length_append, List.length_cons]
      omega
    have htakepre : (pre ++ ':' :: suf).take pre.length = pre := by
      simpa using List.take_left pre (':' :: suf)
    rw [splitHostPort, if_neg hhead, if_pos hcontains]
    simp only [htake, List.reverse_reverse, List.length_reverse, hlen, htakepre]
  · intro r hcon hhead
    rw [splitHostPort, if_neg hhead, hcon]
    simp

/-- Closed witness for `splitTargetFields_spec`: instantiates every
hypothesis-bearing clause at concrete inputs. -/
theorem splitTargetFields_spec_witness :
    splitHostPort ('[' :: ("::1".toList ++ ']' :: ":443".toList)) =
      ("::1".toList, some 443) ∧
    splitHostPort ("ping0.cc".toList ++ ':' :: "443".toList) =
      ("ping0.cc".toList, some 443) ∧
    splitHostPort "nocolon".toList = ("nocolon".toList, none) := by
  refine ⟨?_, ?_, ?_⟩
  · rw [splitTargetFields_spec.2.2.2.1 "::1".toList ":443".toList (by decide)]
    decide
  · rw [splitTargetFields_spec.2.2.2.2.1 "ping0.cc".toList "443".toList
      (by decide) (by decide)]
    decide
  · exact splitTargetFields_spec.2.2.2.2.2.1 "nocolon".toList (by decide) (by decide)

/-! ## Claim C6 — `_extract_address` behaviour -/

/-- **C6 counterexample.** The claim gives the bracketed group precedence
over a dotted quad whenever both are present; but `re.search` returns the
*leftmost* match, so an earlier dotted quad wins: on `"1.2.3.4 [::1]"` the
code returns `"1.2.3.4"`, not the bracket contents `"::1"`. -/
theorem extractAddress_precedence_cex :
    extractAddress ("1.2.3.4 [::1]".toList) = "1.2.3.4".toList ∧
    "1.2.3.4".toList ≠ "::1".toList := by
  constructor
  · decide
  · decide

/-- **C6 (amended).** `extract_address` returns the leftmost occurrence of a
bracketed group or dotted quad (bracket preferred only when both match at
the same offset); with no such occurrence, the part before the first colon
when a colon is present, else the input unchanged; it is total and the
empty input yields the empty output. -/
theorem extractAddress_spec :
    extractAddress [] = [] ∧
    (∀ s a, leftmostAddrMatch s = some a → extractAddress s = a) ∧
    (∀ pre suf, leftmostAddrMatch (pre ++ ':' :: suf) = none → (':' ∈ pre → False) →
        extractAddress (pre ++ ':' :: suf) = pre) ∧
    (∀ s, leftmostAddrMatch s = none → strContains s ':' = false →
        extractAddress s = s) := by
  refine ⟨rfl, ?_, ?_, ?_⟩
  · intro s a h
    rw [extractAddress, findAddr_eq_leftmost, h]
  · intro pre suf hnone hpre
    rw [extractAddress, findAddr_eq_leftmost, hnone]
    rw [if_pos (contains_of_middle ':' pre suf)]
    exact takeWhile_ne_append ':' pre suf hpre
  · intro s hnone hcon
    rw [extractAddress, findAddr_eq_leftmost, hnone, hcon]
    simp

/-- Closed witness for `extractAddress_spec`. -/
theorem extractAddress_spec_witness :
    extractAddress ("a[::1]".toList) = "::1".toList ∧
    extractAddress ("ab".toList ++ ':' :: "cd:ef".toList) = "ab".toList ∧
    extractAddress ("xyz".toList) = "xyz".toList :=
  ⟨extractAddress_spec.2.1 _ _ (by decide),
   extractAddress_spec.2.2.1 "ab".toList "cd:ef".toList (by decide) (by decide),
   extractAddress_spec.2.2.2 _ (by decide) (by decide)⟩

/-! ## JSON records and the log-event normaliser

A decoded JSON object is modelled as an insertion-ordered association list
of `JVal`s.  `JVal.other` stands for any value that is neither a string,
an int nor a dict (floats, bools, lists, `null`); only its Python
truthiness is observable in the embedded code paths. -/

inductive JVal : Type where
  | s (v : Str)
  | n (v : ℤ)
  | dict (m : List (Str × JVal))
  | other (truthy : Bool)

abbrev Record := List (Str × JVal)

/-- Python truthiness of a decoded value. -/
def jTruthy : JVal → Bool
  | .s v => !v.isEmpty
  | .n v => v ≠ 0
  | .dict m => !m.isEmpty
  | .other t => t

/-- Truthiness of an `Optional` value (`None` is falsy). -/
def optTruthy : Option JVal → Bool
  | none => false
  | some v => jTruthy v

/-- Python `a or b` on `Optional` values. -/
def pyOr (a b : Option JVal) : Option JVal := if optTruthy a then a else b

/-- `"needle" in hay` substring test. -/
def strInStr : Str → Str → Bool
  | needle, [] => needle.isEmpty
  | needle, c :: rest =>
    if strHasPre needle (c :: rest) then true else strInStr needle rest

/-- `XrayLogWatcher._address_is_loopback`. -/
def addressIsLoopback (value : Str) : Bool :=
  if value.isEmpty then false
  else
    let address := extractAddress value
    if address.isEmpty then false
    else if strHasPre "127.".toList address then true
    else if address = "::1".toList then true
    else if lowerStr address = "localhost".toList then true
    else false

/-- `XrayLogWatcher._host_from_metadata`. -/
def hostFromMetadata (md : Record) (target : Str) : Str :=
  let host₁ : Str :=
    match alookup md "target".toList with
    | some (.s tv) => (splitTargetFields tv).2.1
    | _ => []
  let host₂ :=
    if host₁.isEmpty ∧ ¬target.isEmpty then (splitTargetFields target).2.1
    else host₁
  if host₂.isEmpty then
    match alookup md "host".toList with
    | some (.s hv) => hv
    | _ => host₂
  else host₂

/-- One entry of `source_candidates` in `_is_internal_api_log`:
`isinstance(candidate, str) and self._address_is_loopback(candidate)`. -/
def candIsLoopback : Option JVal → Bool
  | some (.s v) => addressIsLoopback v
  | _ => false

/-- `XrayLogWatcher._is_internal_api_log`. -/
def isInternalApiLog (md : Record) (target : Str) (ip : Str) : Bool :=
  match pyOr (alookup md "detour".toList) (alookup md "tag".toList) with
  | some (.s detour) =>
    if ¬ strInStr "api".toList (lowerStr detour) then false
    else
      let targetHost := hostFromMetadata md target
      if ¬targetHost.isEmpty ∧ addressIsLoopback targetHost then true
      else if candIsLoopback (alookup md "source".toList) then true
      else if candIsLoopback (alookup md "from".toList) then true
      else if candIsLoopback (alookup md "client".toList) then true
      else if ¬ip.isEmpty ∧ addressIsLoopback ip then true
      else false
  | _ => false

/-- First candidate that is a non-empty string (`isinstance(c, str) and c`),
as used by the `_extract_email` / `_extract_ip` / `_extract_target` /
`_extract_status` candidate loops. -/
def firstStr : List (Option JVal) → Str
  | [] => []
  | some (.s v) :: rest => if v.isEmpty then firstStr rest else v
  | _ :: rest => firstStr rest

/-- `XrayLogWatcher._extract_email`. -/
def extractEmailR (r : Record) : Str :=
  let base := [alookup r "email".toList, alookup r "Email".toList,
    alookup r "user".toList, alookup r "clientEmail".toList,
    alookup r "client".toList]
  let sess :=
    match alookup r "session".toList with
    | some (.dict s) => [alookup s "email".toList, alookup s "user".toList]
    | _ => []
  let acct :=
    match alookup r "account".toList with
    | some (.dict a) => [alookup a "email".toList]
    | _ => []
  firstStr (base ++ sess ++ acct)

/-- `XrayLogWatcher._extract_ip`. -/
def extractIpField (r : Record) : Str :=
  let base := [alookup r "ip".toList, alookup r "IP".toList,
    alookup r "remote".toList, alookup r "remote_addr".toList,
    alookup r "clientIP".toList, alookup r "FromAddress".toList,
    alookup r "from".toList]
  let sess :=
    match alookup r "session".toList with
    | some (.dict s) => [alookup s "ip".toList]
    | _ => []
  let c := firstStr (base ++ sess)
  if c.isEmpty then []
  else
    match findAddr c with
    | some a => a
    | none => c

/-- `XrayLogWatcher._extract_target`. -/
def extractTargetR (r : Record) : Str :=
  let c := firstStr [alookup r "target".toList, alookup r "ToAddress".toList,
    alookup r "to".toList, alookup r "destination".toList,
    alookup r "request".toList]
  if ¬c.isEmpty then c
  else
    match alookup r "session".toList with
    | some (.dict s) =>
      match alookup s "target".toList with
      | some (.s tv) => tv
      | _ => []
    | _ => []

/-- `XrayLogWatcher._lookup_numeric`.  JSON numbers are `JVal.n`; note
that Python's `isinstance(value, int)` would also accept a JSON boolean
(`True`/`False` as `1`/`0`), which this model's opaque `JVal.other`
constructor does not carry — no claim in scope depends on boolean-typed
traffic counters. -/
def lookupNumericR (src : List (Str × JVal)) : List Str → Option ℤ
  | [] => none
  | k :: rest =>
    match alookup src k with
    | some (.n v) => some v
    | some (.s v) =>
      if allDigits v then some (natOfDigits v : ℤ) else lookupNumericR src rest
    | _ => lookupNumericR src rest

/-- Python `a or b` on `Optional[int]` (`0` is falsy). -/
def numOr (a b : Option ℤ) : Option ℤ :=
  match a with
  | some v => if v ≠ 0 then some v else b
  | none => b

/-- Python `a or 0` on `Optional[int]`. -/
def numOrZero : Option ℤ → ℤ
  | some v => v
  | none => 0

/-- `XrayLogWatcher._extract_traffic`. -/
def extractTrafficR (r : Record) : ℤ × ℤ :=
  let upKeys := ["uplink".toList, "upLink".toList, "uplinkBytes".toList,
    "uplink_bytes".toList, "up".toList]
  let downKeys := ["downlink".toList, "downLink".toList, "downlinkBytes".toList,
    "downlink_bytes".toList, "down".toList]
  let up := lookupNumericR r upKeys
  let down := lookupNumericR r downKeys
  match alookup r "traffic".toList with
  | some (.dict t) =>
    (numOrZero (numOr up (lookupNumericR t upKeys)),
     numOrZero (numOr down (lookupNumericR t downKeys)))
  | _ => (numOrZero up, numOrZero down)

/-- `XrayLogWatcher._extract_status`. -/
def extractStatusR (r : Record) : Str :=
  firstStr [alookup r "status".toList, alookup r "action".toList,
    alookup r "event".toList]

/-- The canonical log event; `timestamp` is integer Unix seconds. -/
structure LogEvent : Type where
  timestamp : ℤ
  email : Str
  ip : Str
  target : Str
  transport : Str
  targetHost : Str
  targetPort : Option ℕ
  status : Str
  bytesRead : ℤ
  bytesWritten : ℤ
  metadata : Record

/-- `XrayLogWatcher._build_event`: the internal-API filter applied before an
event is constructed. -/
def buildEvent (ts : ℤ) (email ip target transport host : Str)
    (port : Option ℕ) (status : Str) (br bw : ℤ) (md : Record) :
    Option LogEvent :=
  if isInternalApiLog md target ip then none
  else some ⟨ts, email, ip, target, transport, host, port, status, br, bw, md⟩

/-- The metadata produced by `_normalise_record` (original keys plus
derived `transport`/`host`/`port` when absent). -/
def buildNormMeta (r : Record) : Record :=
  let transport := (splitTargetFields (extractTargetR r)).1
  let host := (splitTargetFields (extractTargetR r)).2.1
  let port := (splitTargetFields (extractTargetR r)).2.2
  let md := r
  let md :=
    if ¬transport.isEmpty ∧ (alookup md "transport".toList).isNone then
      aset md "transport".toList (.s transport)
    else md
  let md :=
    if ¬host.isEmpty ∧ (alookup md "host".toList).isNone then
      aset md "host".toList (.s host)
    else md
  match port with
  | some p =>
    if (alookup md "port".toList).isNone then aset md "port".toList (.n (p : ℤ))
    else md
  | none => md

/-- `XrayLogWatcher._normalise_record`; `ts` abstracts
`_extract_timestamp` (datetime parsing). -/
def normaliseRecord (ts : ℤ) (r : Record) : Option LogEvent :=
  let md := buildNormMeta r
  let email := extractEmailR r
  let ip := extractIpField r
  let target := extractTargetR r
  let status := extractStatusR r
  buildEvent ts email ip target (splitTargetFields target).1
    (splitTargetFields target).2.1 (splitTargetFields target).2.2 status
    (extractTrafficR r).1 (extractTrafficR r).2 md

/-! ## The free-text path (`XrayLogWatcher._parse_text_line`)

The two line grammars themselves are abstracted: the embedding starts from
the captured groups (`date`, `time`, `source`, `status`, `target`,
optional `detour`, stripped trailing `rest`).  The `_KEY_VALUE_PATTERN`
scan of `rest` is likewise abstracted as the list `kvs` of (key, stripped
value) pairs it yields, `emailFb` as the `_EMAIL_PATTERN` fallback search
result, and `leftover` as the stripped text remaining after the matched
`key: value` spans are removed. -/

/-- One iteration of the `key: value` loop: `email`/`reason` keys are
extracted (case-insensitive), everything else lands in metadata. -/
def textKvStep (acc : Str × Str × Record) (kv : Str × Str) : Str × Str × Record :=
  let lowered := lowerStr kv.1
  if lowered = "email".toList then (kv.2, acc.2.1, acc.2.2)
  else if lowered = "reason".toList then (acc.1, kv.2, acc.2.2)
  else (acc.1, acc.2.1, aset acc.2.2 kv.1 (.s kv.2))

/-- The `(email, reason, metadata)` state after the `rest`-processing block
of `_parse_text_line` (key/value scan, leftover reason, email fallback). -/
def textRestState (md : Record) (rest : Str) (kvs : List (Str × Str))
    (emailFb : Option Str) (leftover : Str) : Str × Str × Record :=
  if rest.isEmpty then ([], [], md)
  else
    let st := kvs.foldl textKvStep ([], [], md)
    let email := st.1
    let reason := st.2.1
    let reason := if reason.isEmpty ∧ ¬leftover.isEmpty then leftover else reason
    let email :=
      if email.isEmpty then
        match emailFb with
        | some e => e
        | none => []
      else email
    (email, reason, st.2.2)

/-- The initial metadata dict literal of `_parse_text_line`. -/
def textBaseMeta (line date time statusG source target : Str) : Record :=
  [("timestamp".toList, .s (date ++ ' ' :: time)),
   ("status".toList, .s statusG),
   ("source".toList, .s source),
   ("target".toList, .s target),
   ("raw".toList, .s line)]

/-- The final metadata built by `_parse_text_line` (base dict, `rest`
key/values, then `detour`/`reason`/`email`/`transport`/`host`/`port`). -/
def textMeta (line date time statusG source target : Str) (detour : Option Str)
    (rest : Str) (kvs : List (Str × Str)) (emailFb : Option Str)
    (leftover : Str) : Record :=
  let st := textRestState (textBaseMeta line date time statusG source target)
    rest kvs emailFb leftover
  let email := st.1
  let reason := st.2.1
  let md := st.2.2
  let md :=
    match detour with
    | some d => if ¬d.isEmpty then aset md "detour".toList (.s d) else md
    | none => md
  let md := if ¬reason.isEmpty then aset md "reason".toList (.s reason) else md
  let md := if ¬email.isEmpty then aset md "email".toList (.s email) else md
  let transport := (splitTargetFields target).1
  let host := (splitTargetFields target).2.1
  let md := if ¬transport.isEmpty then aset md "transport".toList (.s transport) else md
  let md := if ¬host.isEmpty then aset md "host".toList (.s host) else md
  match (splitTargetFields target).2.2 with
  | some p => aset md "port".toList (.n (p : ℤ))
  | none => md

/-- The `api -> api` special-case filter of `_parse_text_line`. -/
def textApiSpecial (md : Record) (target : Str) : Bool :=
  (match alookup md "detour".toList with
   | some (.s d) => decide (d = "api -> api".toList)
   | _ => false) &&
  (match alookup md "source".toList with
   | some (.s sv) => strHasPre "127.0.0.1:".toList sv
   | _ => false) &&
  strHasPre "tcp:127.0.0.1:".toList target

/-- `_parse_text_line` from the captured groups onwards. -/
def parseTextGroups (line date time statusG source target : Str)
    (detour : Option Str) (rest : Str) (kvs : List (Str × Str))
    (emailFb : Option Str) (leftover : Str) (ts : ℤ) : Option LogEvent :=
  let st := textRestState (textBaseMeta line date time statusG source target)
    rest kvs emailFb leftover
  let email := st.1
  let ip := extractAddress source
  let md := textMeta line date time statusG source target detour rest kvs
    emailFb leftover
  let status := stripStr statusG
  if textApiSpecial md target then none
  else buildEvent ts email ip target (splitTargetFields target).1
    (splitTargetFields target).2.1 (splitTargetFields target).2.2 status 0 0 md

/-! ## Per-line dispatch (`XrayLogWatcher._parse_line`)

`json.loads` (as a partial function returning a decoded object on success)
and the text-grammar half of `_parse_text_line` are oracles; `tsOf`
abstracts `_extract_timestamp`. -/

/-- `XrayLogWatcher._parse_line`. -/
def parseLine (isJson : Bool) (jsonLoads : Str → Option Record)
    (textParse : Str → Option LogEvent) (tsOf : Record → ℤ) (now : ℤ)
    (raw : Str) : Option LogEvent :=
  let line := stripStr raw
  if line.isEmpty then none
  else if isJson then
    match jsonLoads line with
    | none => none
    | some r => normaliseRecord (tsOf r) r
  else
    match textParse line with
    | some e => some e
    | none =>
      match jsonLoads line with
      | none =>
        buildEvent now [] [] [] [] [] none [] 0 0 [("raw".toList, .s line)]
      | some r => normaliseRecord (tsOf r) r

/-! ## Claim C4 — the internal-API loopback filter -/

/-- The claim's loopback predicate: the extracted address is non-empty and
starts with `127.`, equals `::1`, or equals `localhost` case-insensitively. -/
def loopbackSpec (v : Str) : Prop :=
  extractAddress v ≠ [] ∧
  (strHasPre "127.".toList (extractAddress v) = true ∨
   extractAddress v = "::1".toList ∨
   lowerStr (extractAddress v) = "localhost".toList)

/-- The claim's suppression condition: the detour/tag metadata contains
`"api"` case-insensitively, and the resolved target host, a source-address
metadata entry (`source`/`from`/`client`), or the resolved `ip` field is a
loopback address. -/
def suppressSpec (md : Record) (target ip : Str) : Prop :=
  (∃ d, pyOr (alookup md "detour".toList) (alookup md "tag".toList) =
      some (JVal.s d) ∧ strInStr "api".toList (lowerStr d) = true) ∧
  (loopbackSpec (hostFromMetadata md target) ∨
   (∃ v, (alookup md "source".toList = some (JVal.s v) ∨
          alookup md "from".toList = some (JVal.s v) ∨
          alookup md "client".toList = some (JVal.s v)) ∧ loopbackSpec v) ∨
   loopbackSpec ip)

theorem addressIsLoopback_iff (v : Str) :
    addressIsLoopback v = true ↔ loopbackSpec v := by
  unfold addressIsLoopback loopbackSpec
  by_cases hv : v.isEmpty
  · have hv' : v = [] := by simpa using hv
    subst hv'
    simp [extractAddress, findAddr, strContains]
  · split_ifs with h1 h2 h3 h4 <;> simp_all [List.isEmpty_iff]

theorem guardedLoopback_iff (v : Str) :
    (!v.isEmpty && addressIsLoopback v) = true ↔ loopbackSpec v := by
  rw [Bool.and_eq_true]
  constructor
  · rintro ⟨-, h⟩; exact (addressIsLoopback_iff v).mp h
  · intro h
    refine ⟨?_, (addressIsLoopback_iff v).mpr h⟩
    rcases v with _ | ⟨c, t⟩
    · exact absurd rfl h.1
    · rfl

theorem candIsLoopback_iff (o : Option JVal) :
    candIsLoopback o = true ↔ ∃ v, o = some (JVal.s v) ∧ loopbackSpec v := by
  cases o with
  | none => simp [candIsLoopback]
  | some jv => cases jv <;> simp [candIsLoopback, addressIsLoopback_iff]

/-- `_is_internal_api_log` as a flat boolean formula. -/
theorem isInternalApiLog_eq (md : Record) (target ip : Str) :
    isInternalApiLog md target ip =
      ((match pyOr (alookup md "detour".toList) (alookup md "tag".toList) with
        | some (.s d) => strInStr "api".toList (lowerStr d)
        | _ => false) &&
       ((!(hostFromMetadata md target).isEmpty &&
           addressIsLoopback (hostFromMetadata md target)) ||
        (candIsLoopback (alookup md "source".toList) ||
         (candIsLoopback (alookup md "from".toList) ||
          (candIsLoopback (alookup md "client".toList) ||
           (!ip.isEmpty && addressIsLoopback ip)))))) := by
  unfold isInternalApiLog
  cases pyOr (alookup md "detour".toList) (alookup md "tag".toList) with
  | none => rfl
  | some jv =>
    cases jv with
    | s d =>
      by_cases hapi : strInStr "api".toList (lowerStr d) = true
      · simp only [hapi, not_true_eq_false, if_false, Bool.true_and]
        split_ifs with h1 h2 h3 h4 h5 <;> simp_all
      · have h0 : strInStr "api".toList (lowerStr d) = false := by
          simpa using hapi
        simp_all
    | n v => rfl
    | dict m => rfl
    | other t => rfl

theorem isInternalApiLog_iff (md : Record) (target ip : Str) :
    isInternalApiLog md target ip = true ↔ suppressSpec md target ip := by
  rw [isInternalApiLog_eq, Bool.and_eq_true]
  unfold suppressSpec
  apply and_congr
  · cases hd : pyOr (alookup md "detour".toList) (alookup md "tag".toList) with
    | none => simp
    | some jv => cases jv <;> simp
  · simp only [Bool.or_eq_true]
    rw [guardedLoopback_iff, guardedLoopback_iff, candIsLoopback_iff,
      candIsLoopback_iff, candIsLoopback_iff]
    constructor
    · rintro (h | ⟨v, hv, hl⟩ | ⟨v, hv, hl⟩ | ⟨v, hv, hl⟩ | h)
      · exact Or.inl h
      · exact Or.inr (Or.inl ⟨v, Or.inl hv, hl⟩)
      · exact Or.inr (Or.inl ⟨v, Or.inr (Or.inl hv), hl⟩)
      · exact Or.inr (Or.inl ⟨v, Or.inr (Or.inr hv), hl⟩)
      · exact Or.inr (Or.inr h)
    · rintro (h | ⟨v, hv | hv | hv, hl⟩ | h)
      · exact Or.inl h
      · exact Or.inr (Or.inl ⟨v, hv, hl⟩)
      · exact Or.inr (Or.inr (Or.inl ⟨v, hv, hl⟩))
      · exact Or.inr (Or.inr (Or.inr (Or.inl ⟨v, hv, hl⟩)))
      · exact Or.inr (Or.inr (Or.inr (Or.inr h)))

theorem strHasPre_append : ∀ p s, strHasPre p s = true → ∃ t, s = p ++ t
  | [], s, _ => ⟨s, rfl⟩
  | a :: as, [], h => by simp [strHasPre] at h
  | a :: as, b :: bs, h => by
    rw [strHasPre] at h
    split_ifs at h with hab
    · obtain ⟨t, ht⟩ := strHasPre_append as bs h
      exact ⟨t, by rw [List.cons_append, ← hab, ht]⟩

theorem loopback_of_127 (sv : Str)
    (h : strHasPre "127.0.0.1:".toList sv = true) : loopbackSpec sv := by
  obtain ⟨t, rfl⟩ := strHasPre_append _ _ h
  have he : extractAddress ("127.0.0.1:".toList ++ t) = "127.0.0.1".toList := rfl
  unfold loopbackSpec
  rw [he]
  exact ⟨by decide, Or.inl (by decide)⟩

/-- The `api -> api` special case of `_parse_text_line` is subsumed by the
general `_is_internal_api_log` condition. -/
theorem textApiSpecial_suppress (md : Record) (target ip : Str)
    (h : textApiSpecial md target = true) : suppressSpec md target ip := by
  unfold textApiSpecial at h
  rw [Bool.and_eq_true, Bool.and_eq_true] at h
  obtain ⟨⟨hdet, hsrc⟩, -⟩ := h
  have hdet' : alookup md "detour".toList = some (JVal.s "api -> api".toList) := by
    cases hd : alookup md "detour".toList with
    | none => rw [hd] at hdet; simp at hdet
    | some jv =>
      cases jv with
      | s d =>
        rw [hd] at hdet
        simp only [decide_eq_true_eq] at hdet
        rw [hdet]
      | n v => rw [hd] at hdet; simp at hdet
      | dict m => rw [hd] at hdet; simp at hdet
      | other t => rw [hd] at hdet; simp at hdet
  have hsrc' : ∃ sv, alookup md "source".toList = some (JVal.s sv) ∧
      strHasPre "127.0.0.1:".toList sv = true := by
    cases hs : alookup md "source".toList with
    | none => rw [hs] at hsrc; simp at hsrc
    | some jv =>
      cases jv with
      | s sv => rw [hs] at hsrc; exact ⟨sv, rfl, hsrc⟩
      | n v => rw [hs] at hsrc; simp at hsrc
      | dict m => rw [hs] at hsrc; simp at hsrc
      | other t => rw [hs] at hsrc; simp at hsrc
  obtain ⟨sv, hs1, hs2⟩ := hsrc'
  constructor
  · refine ⟨"api -> api".toList, ?_, by decide⟩
    rw [hdet']
    rfl
  · exact Or.inr (Or.inl ⟨sv, Or.inl hs1, loopback_of_127 sv hs2⟩)

/-- The structured record of the claim's concrete instance. -/
def apiExampleRecord : Record :=
  [("detour".toList, .s "api -> api".toList),
   ("target".toList, .s "tcp:127.0.0.1:62789".toList),
   ("from".toList, .s "127.0.0.1:33122".toList)]

/-- `_normalise_record` returns no event exactly under the suppression
condition (shared by several conjuncts of the claim theorem below). -/
theorem normaliseRecord_none_iff (ts : ℤ) (r : Record) :
    normaliseRecord ts r = none ↔
      suppressSpec (buildNormMeta r) (extractTargetR r) (extractIpField r) := by
  rw [← isInternalApiLog_iff]
  by_cases h : isInternalApiLog (buildNormMeta r) (extractTargetR r)
      (extractIpField r) = true
  · simp [normaliseRecord, buildEvent, h]
  · simp [normaliseRecord, buildEvent, h]

/-- `_parse_text_line` (from the captured groups on) returns no event
exactly under the suppression condition. -/
theorem parseTextGroups_none_iff
    (line date time statusG source target : Str) (detour : Option Str)
    (rest : Str) (kvs : List (Str × Str)) (emailFb : Option Str)
    (leftover : Str) (ts : ℤ) :
    parseTextGroups line date time statusG source target detour rest kvs
        emailFb leftover ts = none ↔
      suppressSpec
        (textMeta line date time statusG source target detour rest kvs
          emailFb leftover)
        target (extractAddress source) := by
  rw [← isInternalApiLog_iff]
  by_cases hs : textApiSpecial
      (textMeta line date time statusG source target detour rest kvs emailFb
        leftover) target = true
  · constructor
    · intro _
      exact (isInternalApiLog_iff _ _ _).mpr
        (textApiSpecial_suppress _ _ _ hs)
    · intro _
      simp [parseTextGroups, hs]
  · by_cases hi : isInternalApiLog
        (textMeta line date time statusG source target detour rest kvs emailFb
          leftover) target (extractAddress source) = true
    · simp [parseTextGroups, buildEvent, hs, hi]
    · simp [parseTextGroups, buildEvent, hs, hi]

/-- The spec's free-text example line. -/
def c4Line : Str :=
  "2025/11/14 22:44:45.001961 from 127.0.0.1:33122 accepted tcp:127.0.0.1:62789 [api -> api]".toList

/-- The free-text strategy on the example line: its grammar matches with
captured groups source `127.0.0.1:33122`, status `accepted`, target
`tcp:127.0.0.1:62789`, detour `api -> api` and empty trailing rest, so
`_parse_text_line` behaves as `parseTextGroups` of those groups. -/
def c4TextParse : Str → Option LogEvent := fun l =>
  parseTextGroups l "2025/11/14".toList "22:44:45.001961".toList
    "accepted".toList "127.0.0.1:33122".toList "tcp:127.0.0.1:62789".toList
    (some "api -> api".toList) [] [] none [] 0

/-- **C4 counterexample.** On the spec's own free-text example line the
suppression condition holds — `_is_internal_api_log` is true for the
line's metadata, and `_parse_text_line` duly returns no event — yet
`_parse_line` does *not* return "no event": it treats the text strategy's
`None` as a grammar miss, the JSON fallback fails on the non-JSON line,
and the line is re-emitted as a degraded raw-only event.  This refutes
the claim's per-line quantification for free-text sources. -/
theorem parseLine_api_resurrect_cex :
    isInternalApiLog
        (textMeta c4Line "2025/11/14".toList "22:44:45.001961".toList
          "accepted".toList "127.0.0.1:33122".toList
          "tcp:127.0.0.1:62789".toList (some "api -> api".toList) [] [] none [])
        "tcp:127.0.0.1:62789".toList
        (extractAddress "127.0.0.1:33122".toList) = true ∧
    c4TextParse c4Line = none ∧
    parseLine false (fun _ => none) c4TextParse (fun _ => 0) 99 c4Line =
      some { timestamp := 99, email := [], ip := [], target := [],
             transport := [], targetHost := [], targetPort := none,
             status := [], bytesRead := 0, bytesWritten := 0,
             metadata := [("raw".toList, JVal.s c4Line)] } :=
  ⟨by decide, rfl, rfl⟩

/-- **C4 (amended).** An event is suppressed (no event returned) exactly
when its detour/tag metadata contains `"api"` case-insensitively and the
resolved target host, a source-address metadata entry, or the resolved
`ip` field is a loopback address — for structured records at the
normalizer (any timestamp, any record), for grammar-matching free-text
lines inside `_parse_text_line` (any captured groups), and per line for
structured (`is_json`) sources whose line decodes; in particular the
record `{"detour": "api -> api", "target": "tcp:127.0.0.1:62789",
"from": "127.0.0.1:33122"}` produces no event.  For free-text sources the
per-line statement fails instead: a non-JSON line on which the text
strategy yields no event — including a grammar-matched line the filter
suppressed — is re-emitted by `_parse_line` as a degraded raw-only
event. -/
theorem internalApiFilter_spec :
    (∀ ts r, normaliseRecord ts r = none ↔
        suppressSpec (buildNormMeta r) (extractTargetR r) (extractIpField r)) ∧
    (∀ line date time statusG source target detour rest kvs emailFb leftover ts,
        parseTextGroups line date time statusG source target detour rest kvs
            emailFb leftover ts = none ↔
          suppressSpec
            (textMeta line date time statusG source target detour rest kvs
              emailFb leftover)
            target (extractAddress source)) ∧
    (∀ jL tP tsOf now line r, stripStr line ≠ [] →
        jL (stripStr line) = some r →
        (parseLine true jL tP tsOf now line = none ↔
          suppressSpec (buildNormMeta r) (extractTargetR r)
            (extractIpField r))) ∧
    (∀ jL tP tsOf now line, stripStr line ≠ [] →
        tP (stripStr line) = none → jL (stripStr line) = none →
        parseLine false jL tP tsOf now line =
          some { timestamp := now, email := [], ip := [], target := [],
                 transport := [], targetHost := [], targetPort := none,
                 status := [], bytesRead := 0, bytesWritten := 0,
                 metadata := [("raw".toList, JVal.s (stripStr line))] }) ∧
    normaliseRecord 0 apiExampleRecord = none := by
  refine ⟨normaliseRecord_none_iff, parseTextGroups_none_iff, ?_, ?_, rfl⟩
  · intro jL tP tsOf now line r hne hj
    have he : (stripStr line).isEmpty = false := by
      simpa [List.isEmpty_iff] using hne
    rw [show parseLine true jL tP tsOf now line = normaliseRecord (tsOf r) r by
      simp [parseLine, he, hj]]
    exact normaliseRecord_none_iff (tsOf r) r
  · intro jL tP tsOf now line hne ht hj
    have he : (stripStr line).isEmpty = false := by
      simpa [List.isEmpty_iff] using hne
    simp only [parseLine, he, Bool.false_eq_true, if_false, ht, hj]
    rfl

/-- Closed witness for `internalApiFilter_spec`: the structured per-line
conjunct applied at the concrete example record, and the free-text
fallback conjunct at a concrete unparseable line. -/
theorem internalApiFilter_witness :
    suppressSpec (buildNormMeta apiExampleRecord)
        (extractTargetR apiExampleRecord) (extractIpField apiExampleRecord) ∧
    parseLine false (fun _ => none) (fun _ => none) (fun _ => 0) 7
        "zzz".toList =
      some { timestamp := 7, email := [], ip := [], target := [],
             transport := [], targetHost := [], targetPort := none,
             status := [], bytesRead := 0, bytesWritten := 0,
             metadata := [("raw".toList, JVal.s "zzz".toList)] } :=
  ⟨(internalApiFilter_spec.2.2.1 (fun _ => some apiExampleRecord)
      (fun _ => none) (fun _ => 0) 0 "x".toList apiExampleRecord
      (by decide) rfl).mp rfl,
   internalApiFilter_spec.2.2.2.1 (fun _ => none) (fun _ => none) (fun _ => 0)
      7 "zzz".toList (by decide) rfl rfl⟩

/-! ## Claim C8 — malformed-line handling in `_parse_line` -/

/-- **C8 counterexample.** A whitespace-only line in a free-text source
fails both parse strategies (both oracles reject it, as `json.loads` and
the grammars do on real input), yet `_parse_line` discards it instead of
degrading it to a raw-only event: the stripped line is empty and the
function returns `None` before either strategy is attempted. -/
theorem parseLine_blank_cex :
    parseLine false (fun _ => none) (fun _ => none) (fun _ => 0) 0
      " ".toList = none := rfl

/-- **C8 (amended).** For a *non-blank* line: with a structured source a
JSON-decode failure discards the line (no event, no error); with a
free-text source, when the text parse yields nothing and the fallback JSON
parse fails, the line is degraded to a minimal event whose metadata holds
only `raw` = the stripped line, with all other structured fields empty or
zero.  Blank (whitespace-only) lines are discarded in both modes.  The
embedding is total, so no input raises or aborts the loop. -/
theorem parseLine_malformed_spec :
    (∀ jL tP tsOf now line, jL (stripStr line) = none →
        parseLine true jL tP tsOf now line = none) ∧
    (∀ jL tP tsOf now line, stripStr line ≠ [] →
        tP (stripStr line) = none → jL (stripStr line) = none →
        parseLine false jL tP tsOf now line =
          some { timestamp := now, email := [], ip := [], target := [],
                 transport := [], targetHost := [], targetPort := none,
                 status := [], bytesRead := 0, bytesWritten := 0,
                 metadata := [("raw".toList, JVal.s (stripStr line))] }) ∧
    (∀ jL tP tsOf now line, parseLine false jL tP tsOf now line = none →
        stripStr line = [] ∨ tP (stripStr line) ≠ none ∨
          jL (stripStr line) ≠ none) := by
  refine ⟨?_, ?_, ?_⟩
  · intro jL tP tsOf now line hj
    by_cases he : (stripStr line).isEmpty
    · simp [parseLine, he]
    · simp [parseLine, he, hj]
  · intro jL tP tsOf now line hne ht hj
    have he : (stripStr line).isEmpty = false := by
      simpa [List.isEmpty_iff] using hne
    simp only [parseLine, he, Bool.false_eq_true, if_false, ht, hj]
    rfl
  · intro jL tP tsOf now line hnone
    by_cases he : (stripStr line).isEmpty
    · exact Or.inl (by simpa using he)
    · cases ht : tP (stripStr line) with
      | some e => exact Or.inr (Or.inl (by simp [ht]))
      | none =>
        cases hj : jL (stripStr line) with
        | some r => exact Or.inr (Or.inr (by simp [hj]))
        | none =>
          rw [show parseLine false jL tP tsOf now line =
              buildEvent now [] [] [] [] [] none [] 0 0
                [("raw".toList, .s (stripStr line))] by
            simp [parseLine, he, ht, hj]] at hnone
          rw [show (buildEvent now [] [] [] [] [] none [] 0 0
              [("raw".toList, JVal.s (stripStr line))] : Option LogEvent) =
              some { timestamp := now, email := [], ip := [], target := [],
                     transport := [], targetHost := [], targetPort := none,
                     status := [], bytesRead := 0, bytesWritten := 0,
                     metadata := [("raw".toList, JVal.s (stripStr line))] }
            from rfl] at hnone
          exact Option.noConfusion hnone

/-- Closed witness for `parseLine_malformed_spec`. -/
theorem parseLine_malformed_witness :
    parseLine true (fun _ => none) (fun _ => none) (fun _ => 0) 0
        "oops".toList = none ∧
    parseLine false (fun _ => none) (fun _ => none) (fun _ => 0) 7
        "oops".toList =
      some { timestamp := 7, email := [], ip := [], target := [],
             transport := [], targetHost := [], targetPort := none,
             status := [], bytesRead := 0, bytesWritten := 0,
             metadata := [("raw".toList, JVal.s "oops".toList)] } :=
  ⟨parseLine_malformed_spec.1 (fun _ => none) (fun _ => none) (fun _ => 0) 0
      "oops".toList rfl,
   parseLine_malformed_spec.2.1 (fun _ => none) (fun _ => none) (fun _ => 0) 7
      "oops".toList (by decide) rfl rfl⟩

/-! ## Python float division (`int.__truediv__` then `int()`)

`_distribute_estimated_ip_bytes` computes
`share = (total_bytes * count) / total_connections` with Python 3 `/`,
which is the *correctly rounded binary64* quotient (CPython's
`long_true_divide`), then truncates with `int(share)`.  The model below
computes trunc(fl(a / b)) purely over ℕ: scale the quotient so its
53-bit significand is an integer, round to nearest with ties to even,
and shift back.  Overflow to infinity and subnormals are outside the
value ranges that occur here. -/

/-- Number of binary digits of `n`; fuel-based so it reduces in the kernel. -/
def bitlenAux : ℕ → ℕ → ℕ
  | 0, _ => 0
  | fuel + 1, n => if n = 0 then 0 else bitlenAux fuel (n / 2) + 1

def natBitlen (n : ℕ) : ℕ := bitlenAux n n

/-- `int(float(a) / float(b))` for naturals: the correctly rounded binary64
quotient (round-to-nearest, ties-to-even) truncated toward zero. -/
def natFloatDivTrunc (a b : ℕ) : ℕ :=
  if a = 0 ∨ b = 0 then 0
  else
    let e : ℤ := (natBitlen a : ℤ) - (natBitlen b : ℤ)
    let s : ℤ := 52 - e
    let N := if 0 ≤ s then a * 2 ^ s.toNat else a
    let D := if 0 ≤ s then b else b * 2 ^ (-s).toNat
    let (N, s) := if N / D < 2 ^ 52 then (N * 2, s + 1) else (N, s)
    let m0 := N / D
    let r := N % D
    let m :=
      if D < 2 * r then m0 + 1
      else if 2 * r < D then m0
      else if m0 % 2 = 0 then m0 else m0 + 1
    if 0 ≤ s then m / 2 ^ s.toNat else m * 2 ^ (-s).toNat

/-- `int(a / b)` for Python ints (`b ≠ 0`): binary64 true division then
truncation toward zero; both operations commute with sign. -/
def pyTrueDivInt (a b : ℤ) : ℤ :=
  let mag := natFloatDivTrunc a.natAbs b.natAbs
  if (0 ≤ a) = (0 ≤ b) then (mag : ℤ) else -(mag : ℤ)

/-! ## Metrics aggregator (`watchdog/metrics/aggregator.py`)

Timestamps are integer Unix seconds (`int(ts.timestamp())`); bucket maps
are insertion-ordered association lists (`Dict[Tuple[str, int], ...]`). -/

structure MUserBucket : Type where
  email : Str
  bucketEpoch : ℤ
  bucketStart : ℤ
  upBytes : ℤ
  downBytes : ℤ
  connTotal : ℤ
  connTcp : ℤ
  connUdp : ℤ
  rejects : ℤ
  ipCounts : List (Str × ℤ)
  hostCounts : List (Str × ℤ)
  ipSet : List Str
deriving DecidableEq

/-- `_MutableUserBucket(email, epoch, start)` with default counters. -/
def newUserBucket (email : Str) (epoch start : ℤ) : MUserBucket :=
  ⟨email, epoch, start, 0, 0, 0, 0, 0, 0, [], [], []⟩

structure MIpBucket : Type where
  ip : Str
  bucketEpoch : ℤ
  bucketStart : ℤ
  measuredBytes : ℤ
  estimatedBytes : ℤ
  connTotal : ℤ
  users : List (Str × ℤ)
  hostCounts : List (Str × ℤ)
deriving DecidableEq

def newIpBucket (ip : Str) (epoch start : ℤ) : MIpBucket :=
  ⟨ip, epoch, start, 0, 0, 0, [], []⟩

/-- Frozen `UserBucket`. -/
structure UserBucket : Type where
  email : Str
  bucketStart : ℤ
  upBytes : ℤ
  downBytes : ℤ
  connTotal : ℤ
  connTcp : ℤ
  connUdp : ℤ
  uniqueIps : ℕ
  ipBreakdown : List (Str × ℤ)
  hostBreakdown : List (Str × ℤ)
  rejects : ℤ
deriving DecidableEq

/-- Frozen `IpBucket`. -/
structure IpBucket : Type where
  ip : Str
  bucketStart : ℤ
  bytesTotal : ℤ
  byteSource : Str
  connTotal : ℤ
  users : List (Str × ℤ)
  hostBreakdown : List (Str × ℤ)
deriving DecidableEq

/-- `_MutableUserBucket.freeze`. -/
def freezeUser (b : MUserBucket) : UserBucket :=
  ⟨b.email, b.bucketStart, b.upBytes, b.downBytes, b.connTotal, b.connTcp,
   b.connUdp, (b.ipSet.filter (fun ip => ¬ip.isEmpty)).length, b.ipCounts,
   b.hostCounts, b.rejects⟩

/-- `_MutableIpBucket.freeze`: measured bytes win when non-zero, else the
estimated accumulator, with the matching provenance tag. -/
def freezeIp (b : MIpBucket) : IpBucket :=
  ⟨b.ip, b.bucketStart,
   if b.measuredBytes ≠ 0 then b.measuredBytes else b.estimatedBytes,
   if b.measuredBytes ≠ 0 then "measured".toList else "estimated".toList,
   b.connTotal, b.users, b.hostCounts⟩

structure MetricsSnapshot : Type where
  generatedAt : ℤ
  bucketSeconds : ℤ
  users : List UserBucket
  ips : List IpBucket
deriving DecidableEq

/-- The aggregator's guarded state. -/
structure AggState : Type where
  bucketSeconds : ℤ
  retention : ℤ
  userState : List ((Str × ℤ) × MUserBucket)
  ipState : List ((Str × ℤ) × MIpBucket)
  userTotals : List (Str × (ℤ × ℤ))

/-- `MetricsAggregator.__init__`: the bucket interval in microseconds
(`timedelta` resolution); `int(total_seconds())` truncates toward zero and
must be positive.  Retention is plain seconds. -/
def mkAggregator (intervalUs : ℤ) (retentionSec : ℤ) : Except Str AggState :=
  let bucketSeconds := Int.tdiv intervalUs 1000000
  if bucketSeconds ≤ 0 then Except.error "bucket interval must be positive".toList
  else Except.ok ⟨bucketSeconds, retentionSec, [], [], []⟩

/-- `MetricsAggregator._bucket_epoch`: `(seconds // W) * W` with Python
floor division. -/
def bucketEpoch (w ts : ℤ) : ℤ := Int.ediv ts w * w

/-- `MetricsAggregator._compute_delta`. -/
def computeDelta (current previous : ℤ) : ℤ :=
  let c := max 0 current
  let p := max 0 previous
  if p ≤ c then c - p else c

/-- Loop body of `record_user_counters` for one `(email, up, down)` entry. -/
def userCounterStep (epoch start : ℤ) (st : AggState) (entry : Str × ℤ × ℤ) :
    AggState :=
  let email := entry.1
  let up := entry.2.1
  let down := entry.2.2
  let prev := (alookup st.userTotals email).getD (up, down)
  let upDelta := computeDelta up prev.1
  let downDelta := computeDelta down prev.2
  let totals := aset st.userTotals email (up, down)
  if upDelta = 0 ∧ downDelta = 0 then { st with userTotals := totals }
  else
    { st with
      userTotals := totals,
      userState := aupd
        (fun b =>
          { b with
            upBytes := b.upBytes + upDelta,
            downBytes := b.downBytes + downDelta })
        (newUserBucket email epoch start) st.userState (email, epoch) }

/-- `MetricsAggregator.record_user_counters`. -/
def recordUserCounters (ts : ℤ) (counters : List (Str × ℤ × ℤ))
    (st : AggState) : AggState :=
  let epoch := bucketEpoch st.bucketSeconds ts
  counters.foldl (userCounterStep epoch epoch) st

/-- The in-place mutation of a user bucket for one event in
`record_log_events` (connection counters, transport split, IP/host
breakdowns, unique-IP set, rejects). -/
def userEventUpd (ev : LogEvent) (hostLabel : Str) (b : MUserBucket) :
    MUserBucket :=
  let b := { b with connTotal := b.connTotal + 1 }
  let b :=
    if lowerStr ev.transport = "udp".toList then
      { b with connUdp := b.connUdp + 1 }
    else { b with connTcp := b.connTcp + 1 }
  let b := { b with ipCounts := aupd (fun n => n + 1) 0 b.ipCounts ev.ip }
  let b := { b with hostCounts := aupd (fun n => n + 1) 0 b.hostCounts hostLabel }
  let b := { b with ipSet := if ev.ip ∈ b.ipSet then b.ipSet else b.ipSet ++ [ev.ip] }
  if ¬ev.status.isEmpty ∧ lowerStr ev.status ≠ "accepted".toList then
    { b with rejects := b.rejects + 1 }
  else b

/-- The in-place mutation of an IP bucket for one event. -/
def ipEventUpd (ev : LogEvent) (hostLabel : Str) (b : MIpBucket) : MIpBucket :=
  let b := { b with connTotal := b.connTotal + 1 }
  let b :=
    if ¬ev.email.isEmpty then
      { b with users := aupd (fun n => n + 1) 0 b.users ev.email }
    else b
  { b with hostCounts := aupd (fun n => n + 1) 0 b.hostCounts hostLabel }

/-- Loop body of `record_log_events` for one event. -/
def logEventStep (w : ℤ) (st : AggState) (ev : LogEvent) : AggState :=
  let epoch := bucketEpoch w ev.timestamp
  let hostLabel := if ¬ev.targetHost.isEmpty then ev.targetHost else ev.target
  let st :=
    if ¬ev.email.isEmpty then
      let updated := aupd (userEventUpd ev hostLabel)
          (newUserBucket ev.email epoch epoch) st.userState (ev.email, epoch)
      { st with userState := updated }
    else st
  if ev.ip.isEmpty then st
  else
    let updated := aupd (ipEventUpd ev hostLabel)
        (newIpBucket ev.ip epoch epoch) st.ipState (ev.ip, epoch)
    { st with ipState := updated }

/-- `MetricsAggregator.record_log_events`. -/
def recordLogEvents (events : List LogEvent) (st : AggState) : AggState :=
  events.foldl (logEventStep st.bucketSeconds) st

/-- `MetricsAggregator.record_ip_counters`. -/
def recordIpCounters (ts : ℤ) (counters : List (Str × ℤ)) (st : AggState) :
    AggState :=
  let epoch := bucketEpoch st.bucketSeconds ts
  counters.foldl
    (fun st e =>
      let updated := aupd
          (fun b => { b with measuredBytes := b.measuredBytes + max 0 e.2 })
          (newIpBucket e.1 epoch epoch) st.ipState (e.1, epoch)
      { st with ipState := updated })
    st

/-- `MetricsAggregator._purge_locked`: delete every bucket with
`bucket_epoch < cutoff_epoch`. -/
def purgeLocked (cutoff : ℤ) (st : AggState) : AggState :=
  { st with
    userState := st.userState.filter (fun p => cutoff ≤ p.2.bucketEpoch),
    ipState := st.ipState.filter (fun p => cutoff ≤ p.2.bucketEpoch) }

/-- `MetricsAggregator.purge_expired`. -/
def purgeExpired (asOf : ℤ) (st : AggState) : AggState :=
  purgeLocked (bucketEpoch st.bucketSeconds (asOf - st.retention)) st

/-- `_distribute_estimated_ip_bytes` for one frozen user bucket. -/
def distributeOne (w : ℤ) (ipMap : List ((Str × ℤ) × MIpBucket))
    (fb : UserBucket) : List ((Str × ℤ) × MIpBucket) :=
  let totalBytes := fb.upBytes + fb.downBytes
  if totalBytes ≤ 0 then ipMap
  else
    let totalConnections :=
      if fb.connTotal ≠ 0 then fb.connTotal
      else (fb.ipBreakdown.map Prod.snd).sum
    if totalConnections ≤ 0 then ipMap
    else
      let epoch := bucketEpoch w fb.bucketStart
      fb.ipBreakdown.foldl
        (fun m e =>
          let share := pyTrueDivInt (totalBytes * e.2) totalConnections
          aupd (fun b => { b with estimatedBytes := b.estimatedBytes + share })
            (newIpBucket e.1 epoch fb.bucketStart) m (e.1, epoch))
        ipMap

/-- Lexicographic `<` on model strings (Python string comparison). -/
def strLt : Str → Str → Bool
  | [], [] => false
  | [], _ :: _ => true
  | _ :: _, [] => false
  | a :: as, b :: bs => if a = b then strLt as bs else decide (a < b)

def userBucketLt (a b : UserBucket) : Bool :=
  if a.bucketStart = b.bucketStart then strLt a.email b.email
  else decide (a.bucketStart < b.bucketStart)

def ipBucketLt (a b : IpBucket) : Bool :=
  if a.bucketStart = b.bucketStart then strLt a.ip b.ip
  else decide (a.bucketStart < b.bucketStart)

/-- Stable insertion into a sorted list (ascending, strict `lt`). -/
def insertOrd (lt : α → α → Bool) (x : α) : List α → List α
  | [] => [x]
  | y :: t => if lt y x then y :: insertOrd lt x t else x :: y :: t

/-- Stable ascending sort, modelling `list.sort(key=...)`. -/
def sortOrd (lt : α → α → Bool) : List α → List α
  | [] => []
  | x :: t => insertOrd lt x (sortOrd lt t)

/-- `MetricsAggregator.snapshot`.

The second component is the aggregator state left behind.  The source
copies the bucket dict with `{key: bucket for key, bucket in items()}`,
which shares the mutable bucket objects, so the estimated-byte
distribution mutates every surviving persisted IP bucket in place, while
IP buckets freshly created by `setdefault` exist only in the copy.  The
model reproduces this: the persisted `ipState` is the distributed map
restricted to the keys that were present before distribution. -/
def snapshotFn (now : ℤ) (st : AggState) : MetricsSnapshot × AggState :=
  let cutoff := bucketEpoch st.bucketSeconds (now - st.retention)
  let st1 := purgeLocked cutoff st
  let userBuckets := st1.userState.map (fun p => freezeUser p.2)
  let ipDist := userBuckets.foldl (distributeOne st.bucketSeconds) st1.ipState
  (⟨now, st.bucketSeconds, sortOrd userBucketLt userBuckets,
    sortOrd ipBucketLt (ipDist.map (fun p => freezeIp p.2))⟩,
   { st1 with ipState := ipDist.filter (fun p => (alookup st1.ipState p.1).isSome) })

/-- Membership in the user map after `purge_expired` (shared by several
claims below). -/
theorem mem_purgeExpired_user (st : AggState) (asOf : ℤ) (k : Str × ℤ)
    (b : MUserBucket) :
    (k, b) ∈ (purgeExpired asOf st).userState ↔
      ((k, b) ∈ st.userState ∧
        bucketEpoch st.bucketSeconds (asOf - st.retention) ≤ b.bucketEpoch) := by
  simp [purgeExpired, purgeLocked, List.mem_filter]

/-- Membership in the IP map after `purge_expired`. -/
theorem mem_purgeExpired_ip (st : AggState) (asOf : ℤ) (k : Str × ℤ)
    (b : MIpBucket) :
    (k, b) ∈ (purgeExpired asOf st).ipState ↔
      ((k, b) ∈ st.ipState ∧
        bucketEpoch st.bucketSeconds (asOf - st.retention) ≤ b.bucketEpoch) := by
  simp [purgeExpired, purgeLocked, List.mem_filter]

/-! ## Claim C1 — `snapshot()` is not idempotent (shared-bucket mutation) -/

/-- One accepted connection for user `u` from `1.2.3.4` at `t = 5`. -/
def c1Event : LogEvent :=
  ⟨5, "u".toList, "1.2.3.4".toList, "t".toList, [], "h".toList, none,
   "accepted".toList, 0, 0, []⟩

/-- Aggregator state (10-second buckets, ample retention) after one log
event and two counter polls for `u`: the first poll seeds the baseline,
the second delivers a 40/60-byte delta. -/
def c1State : AggState :=
  recordUserCounters 6 [("u".toList, 40, 60)]
    (recordUserCounters 5 [("u".toList, 0, 0)]
      (recordLogEvents [c1Event] (AggState.mk 10 1000000000 [] [] [])))

/-- **C1.** Two immediately successive `snapshot()` calls with no
intervening `record_*` calls do *not* yield identical bucket contents: the
first snapshot reports the IP bucket of `1.2.3.4` with 100 estimated
bytes, the second reports 200, because the estimated-byte distribution
mutates the shared (aliased) persisted IP bucket; the user buckets are
unchanged, so the divergence is exactly in the IP-bucket `bytes_total`. -/
theorem snapshot_not_idempotent :
    ((snapshotFn 100 c1State).1.ips.map
        (fun b => (b.ip, b.bytesTotal, b.byteSource))) =
      [("1.2.3.4".toList, 100, "estimated".toList)] ∧
    ((snapshotFn 100 (snapshotFn 100 c1State).2).1.ips.map
        (fun b => (b.ip, b.bytesTotal, b.byteSource))) =
      [("1.2.3.4".toList, 200, "estimated".toList)] ∧
    (snapshotFn 100 c1State).1.users =
      (snapshotFn 100 (snapshotFn 100 c1State).2).1.users := by
  exact ⟨by decide, by decide, by decide⟩

/-! ## Claim C2 — the estimated share is float-divided, not
integer-truncated -/

/-- A user bucket with `2^53 + 3` total bytes over a single connection from
a single IP. -/
def c2Bucket : UserBucket :=
  ⟨"u".toList, 0, 9007199254740995, 0, 1, 1, 0, 1,
   [("1.2.3.4".toList, 1)], [], 0⟩

/-- **C2.** The distribution step assigns
`int((total_bytes * count) / total_connections)` with binary64 division:
at `total_bytes = 2^53 + 3`, `count = total_connections = 1` the assigned
share is `2^53 + 4`, which exceeds both the exact integer-truncated share
and the bucket's total bytes — so the sum of estimated bytes can exceed
the user bucket's total, contrary to the claimed invariant. -/
theorem estimatedShare_overshoot :
    (distributeOne 10 [] c2Bucket).map (fun p => (p.1.1, p.2.estimatedBytes)) =
      [("1.2.3.4".toList, 9007199254740996)] ∧
    c2Bucket.upBytes + c2Bucket.downBytes = 9007199254740995 ∧
    (9007199254740995 : ℤ) < 9007199254740996 := by
  exact ⟨by decide, by decide, by decide⟩

/-! ## Claim C9 — constructor validation of the bucket interval -/

/-- **C9 counterexample.** A strictly positive bucket interval of half a
second (500000 µs) truncates to `int(total_seconds()) = 0`, so the
constructor raises even though the duration is positive. -/
theorem mkAggregator_subsecond_cex :
    (mkAggregator 500000 604800).isOk = false ∧ ((0 : ℤ) < 500000) := by
  exact ⟨by decide, by decide⟩

/-- **C9 (amended).** Construction fails for every interval whose
truncated whole-second value is non-positive — all non-positive intervals
*and* all sub-second positive ones — and succeeds for every interval of at
least one second, yielding a consistent empty state with positive bucket
width; a failed construction yields no aggregator value at all. -/
theorem mkAggregator_spec :
    (∀ us r : ℤ, us ≤ 0 → (mkAggregator us r).isOk = false) ∧
    (∀ us r : ℤ, us < 1000000 → (mkAggregator us r).isOk = false) ∧
    (∀ us r : ℤ, 1000000 ≤ us →
        mkAggregator us r = Except.ok ⟨Int.tdiv us 1000000, r, [], [], []⟩ ∧
        0 < Int.tdiv us 1000000) ∧
    (∀ us r st, mkAggregator us r = Except.ok st →
        0 < st.bucketSeconds ∧ st.userState = [] ∧ st.ipState = [] ∧
        st.userTotals = []) := by
  have hlow : ∀ us : ℤ, us < 1000000 → Int.tdiv us 1000000 ≤ 0 := by
    intro us h
    rcases le_or_lt us 0 with hus | hus
    · have h1 : 0 ≤ Int.tdiv (-us) 1000000 :=
        Int.tdiv_nonneg (by omega) (by norm_num)
      have h2 : Int.tdiv (-us) 1000000 = -Int.tdiv us 1000000 :=
        Int.neg_tdiv us 1000000
      omega
    · have h0 : (0 : ℤ) ≤ us := le_of_lt hus
      rw [Int.tdiv_eq_ediv h0 (by norm_num)]
      have := Int.ediv_add_emod us 1000000
      have := Int.emod_nonneg us (b := 1000000) (by norm_num)
      omega
  refine ⟨?_, ?_, ?_, ?_⟩
  · intro us r h
    have h0 := hlow us (by omega)
    rw [mkAggregator, if_pos h0]
    rfl
  · intro us r h
    have h0 := hlow us h
    rw [mkAggregator, if_pos h0]
    rfl
  · intro us r h
    have hpos : 0 < Int.tdiv us 1000000 := by
      rw [Int.tdiv_eq_ediv (by omega) (by norm_num)]
      rw [show (0 : ℤ) < us / 1000000 ↔ 1 ≤ us / 1000000 from Iff.rfl]
      rw [Int.le_ediv_iff_mul_le (by norm_num)]
      omega
    constructor
    · rw [mkAggregator, if_neg (by omega)]
    · exact hpos
  · intro us r st h
    rw [mkAggregator] at h
    by_cases hw : Int.tdiv us 1000000 ≤ 0
    · rw [if_pos hw] at h
      exact absurd h (by simp)
    · rw [if_neg hw] at h
      have h' := Except.ok.inj h
      subst h'
      exact ⟨not_le.mp hw, rfl, rfl, rfl⟩

/-- Closed witness for `mkAggregator_spec`. -/
theorem mkAggregator_spec_witness :
    (mkAggregator (-5) 604800).isOk = false ∧
    (mkAggregator 500001 604800).isOk = false ∧
    mkAggregator 10000000 604800 = Except.ok ⟨10, 604800, [], [], []⟩ ∧
    (0 : ℤ) < 10 :=
  ⟨mkAggregator_spec.1 (-5) 604800 (by decide),
   mkAggregator_spec.2.1 500001 604800 (by decide),
   (mkAggregator_spec.2.2.1 10000000 604800 (by decide)).1,
   (mkAggregator_spec.2.2.1 10000000 604800 (by decide)).2⟩

theorem mem_insertOrd (lt : α → α → Bool) (x a : α) :
    ∀ l : List α, a ∈ insertOrd lt x l ↔ a = x ∨ a ∈ l
  | [] => by simp [insertOrd]
  | y :: t => by
    rw [insertOrd]
    split_ifs with hlt
    · rw [List.mem_cons, mem_insertOrd lt x a t, List.mem_cons]
      tauto
    · simp only [List.mem_cons]

theorem mem_sortOrd (lt : α → α → Bool) (a : α) :
    ∀ l : List α, a ∈ sortOrd lt l ↔ a ∈ l
  | [] => Iff.rfl
  | x :: t => by
    rw [sortOrd, mem_insertOrd, mem_sortOrd lt a t, List.mem_cons]

/-- Bucket-alignment invariant: every mutable bucket in the state has
`bucket_start = bucket_epoch`.  The aggregator only ever creates buckets
as `_MutableUserBucket(email, epoch, start)` / `_MutableIpBucket(ip,
epoch, start)` with `start = epoch`, and no mutation touches either
field, so every state it builds satisfies the invariant (proved below). -/
def alignedState (st : AggState) : Prop :=
  (∀ k b, (k, b) ∈ st.userState → b.bucketStart = b.bucketEpoch) ∧
  (∀ k b, (k, b) ∈ st.ipState → b.bucketStart = b.bucketEpoch)

theorem userEventUpd_fields (ev : LogEvent) (hl : Str) (b : MUserBucket) :
    (userEventUpd ev hl b).bucketStart = b.bucketStart ∧
    (userEventUpd ev hl b).bucketEpoch = b.bucketEpoch := by
  simp only [userEventUpd]
  split_ifs <;> exact ⟨rfl, rfl⟩

theorem ipEventUpd_fields (ev : LogEvent) (hl : Str) (b : MIpBucket) :
    (ipEventUpd ev hl b).bucketStart = b.bucketStart ∧
    (ipEventUpd ev hl b).bucketEpoch = b.bucketEpoch := by
  simp only [ipEventUpd]
  split_ifs <;> exact ⟨rfl, rfl⟩

/-- `setdefault` + mutate preserves equality of two per-bucket fields when
the mutator preserves both fields and the default satisfies it. -/
theorem aligned_aupd {κ β : Type} [DecidableEq κ] (g h : β → ℤ)
    {f : β → β} {d : β} {m : List (κ × β)} {k k' : κ} {b : β}
    (hb : (k', b) ∈ aupd f d m k)
    (hf : ∀ x, g (f x) = g x ∧ h (f x) = h x) (hd : g d = h d)
    (hm : ∀ k₀ x, (k₀, x) ∈ m → g x = h x) :
    g b = h b := by
  rcases mem_aupd f d m k (k', b) hb with hmem | ⟨-, w, hw, hval⟩
  · exact hm _ _ hmem
  · have hb' : b = f w := hval
    rw [hb', (hf w).1, (hf w).2]
    rcases hw with rfl | hw
    · exact hd
    · exact hm _ _ hw

theorem alignedState_userCounterStep (epoch : ℤ) (st : AggState)
    (e : Str × ℤ × ℤ) (ha : alignedState st) :
    alignedState (userCounterStep epoch epoch st e) := by
  obtain ⟨hu, hi⟩ := ha
  constructor
  · intro k b hb
    simp only [userCounterStep] at hb
    split_ifs at hb
    · exact hu k b hb
    · exact aligned_aupd MUserBucket.bucketStart MUserBucket.bucketEpoch hb
        (fun x => ⟨rfl, rfl⟩) rfl hu
  · intro k b hb
    simp only [userCounterStep] at hb
    split_ifs at hb <;> exact hi k b hb

theorem alignedState_logEventStep (w : ℤ) (st : AggState) (ev : LogEvent)
    (ha : alignedState st) : alignedState (logEventStep w st ev) := by
  obtain ⟨hu, hi⟩ := ha
  constructor
  · intro k b hb
    simp only [logEventStep] at hb
    split_ifs at hb <;>
      first
      | exact hu k b hb
      | exact aligned_aupd MUserBucket.bucketStart MUserBucket.bucketEpoch hb
          (fun x => userEventUpd_fields ev _ x) rfl hu
  · intro k b hb
    simp only [logEventStep] at hb
    split_ifs at hb <;>
      first
      | exact hi k b hb
      | exact aligned_aupd MIpBucket.bucketStart MIpBucket.bucketEpoch hb
          (fun x => ipEventUpd_fields ev _ x) rfl hi

theorem alignedState_logEvents (evs : List LogEvent) :
    ∀ (w : ℤ) (st : AggState), alignedState st →
      alignedState (evs.foldl (logEventStep w) st) := by
  induction evs with
  | nil => exact fun w st h => h
  | cons e t ih =>
    exact fun w st h => ih w _ (alignedState_logEventStep w st e h)

theorem alignedState_recordLogEvents (evs : List LogEvent) (st : AggState)
    (h : alignedState st) : alignedState (recordLogEvents evs st) :=
  alignedState_logEvents evs st.bucketSeconds st h

theorem alignedState_userCounters (cs : List (Str × ℤ × ℤ)) :
    ∀ (epoch : ℤ) (st : AggState), alignedState st →
      alignedState (cs.foldl (userCounterStep epoch epoch) st) := by
  induction cs with
  | nil => exact fun _ _ h => h
  | cons e t ih =>
    exact fun epoch st h => ih epoch _ (alignedState_userCounterStep epoch st e h)

theorem alignedState_recordUserCounters (ts : ℤ) (cs : List (Str × ℤ × ℤ))
    (st : AggState) (h : alignedState st) :
    alignedState (recordUserCounters ts cs st) :=
  alignedState_userCounters cs (bucketEpoch st.bucketSeconds ts) st h

theorem alignedState_ipCounters (cs : List (Str × ℤ)) :
    ∀ (epoch : ℤ) (st : AggState), alignedState st →
      alignedState (cs.foldl
        (fun st e =>
          let updated := aupd
              (fun b => { b with measuredBytes := b.measuredBytes + max 0 e.2 })
              (newIpBucket e.1 epoch epoch) st.ipState (e.1, epoch)
          { st with ipState := updated }) st) := by
  induction cs with
  | nil => exact fun _ _ h => h
  | cons e t ih =>
    intro epoch st h
    refine ih epoch _ ⟨h.1, ?_⟩
    intro k b hb
    exact aligned_aupd MIpBucket.bucketStart MIpBucket.bucketEpoch hb
      (fun x => ⟨rfl, rfl⟩) rfl h.2

theorem alignedState_recordIpCounters (ts : ℤ) (cs : List (Str × ℤ))
    (st : AggState) (h : alignedState st) :
    alignedState (recordIpCounters ts cs st) :=
  alignedState_ipCounters cs (bucketEpoch st.bucketSeconds ts) st h

theorem alignedState_purgeExpired (asOf : ℤ) (st : AggState)
    (h : alignedState st) : alignedState (purgeExpired asOf st) := by
  constructor
  · intro k b hb
    exact h.1 k b ((mem_purgeExpired_user st asOf k b).mp hb).1
  · intro k b hb
    exact h.2 k b ((mem_purgeExpired_ip st asOf k b).mp hb).1

/-- Generic `setdefault`-fold: keys present before the fold stay present
(contrapositive form). -/
theorem alookup_foldl_aupd_none {κ β γ : Type} [DecidableEq κ]
    (F : γ → β → β) (D : γ → β) (K : γ → κ) :
    ∀ (entries : List γ) (m : List (κ × β)) (k' : κ),
      alookup (entries.foldl (fun m e => aupd (F e) (D e) m (K e)) m) k' =
          none →
      alookup m k' = none := by
  intro entries
  induction entries with
  | nil => exact fun m k' h => h
  | cons e t ih =>
    intro m k' h
    rw [List.foldl_cons] at h
    exact alookup_aupd_none _ _ _ _ _ (ih _ _ h)

/-- Generic `setdefault`-fold: a binding under a key that already existed
before the fold keeps the field equality (fresh appends can only live
under keys that were absent). -/
theorem aligned_foldl_aupd {κ β γ : Type} [DecidableEq κ]
    (g h : β → ℤ) (ref : List (κ × β))
    (F : γ → β → β) (D : γ → β) (K : γ → κ)
    (hF : ∀ e x, g (F e x) = g x ∧ h (F e x) = h x) :
    ∀ (entries : List γ) (m : List (κ × β)),
      (∀ k' x, (k', x) ∈ m → (alookup ref k').isSome = true → g x = h x) →
      (∀ k', alookup m k' = none → alookup ref k' = none) →
      (∀ k' x,
          (k', x) ∈ entries.foldl (fun m e => aupd (F e) (D e) m (K e)) m →
          (alookup ref k').isSome = true → g x = h x) ∧
      (∀ k',
          alookup (entries.foldl (fun m e => aupd (F e) (D e) m (K e)) m) k' =
              none →
          alookup ref k' = none) := by
  intro entries
  induction entries with
  | nil => exact fun m hS hT => ⟨hS, hT⟩
  | cons e t ih =>
    intro m hS hT
    simp only [List.foldl_cons]
    refine ih (aupd (F e) (D e) m (K e)) ?_ ?_
    · intro k' x hx hsome
      rcases mem_aupd_cases (F e) (D e) m (K e) (k', x) hx with
        hmem | ⟨heq, hnone⟩ | ⟨w, hw, heq⟩
      · exact hS _ _ hmem hsome
      · have hk : k' = K e := congrArg Prod.fst heq
        rw [hk, hT (K e) hnone] at hsome
        exact absurd hsome (by simp)
      · have hk : k' = K e := congrArg Prod.fst heq
        have hx' : x = F e w := congrArg Prod.snd heq
        rw [hx', (hF e w).1, (hF e w).2]
        refine hS (K e) w hw ?_
        rw [← hk]
        exact hsome
    · intro k' hnone
      exact hT _ (alookup_aupd_none _ _ _ _ _ hnone)

theorem alookup_distributeOne_none (w : ℤ) (fb : UserBucket)
    (m : List ((Str × ℤ) × MIpBucket)) (k' : Str × ℤ)
    (hnone : alookup (distributeOne w m fb) k' = none) :
    alookup m k' = none := by
  simp only [distributeOne] at hnone
  split_ifs at hnone <;>
    first
    | exact hnone
    | exact alookup_foldl_aupd_none _ _ _ fb.ipBreakdown m k' hnone

theorem mem_distributeOne_aligned (ref : List ((Str × ℤ) × MIpBucket))
    (w : ℤ) (fb : UserBucket) (m : List ((Str × ℤ) × MIpBucket))
    (hS : ∀ k' x, (k', x) ∈ m → (alookup ref k').isSome = true →
        x.bucketStart = x.bucketEpoch)
    (hT : ∀ k', alookup m k' = none → alookup ref k' = none)
    (k' : Str × ℤ) (x : MIpBucket) (hx : (k', x) ∈ distributeOne w m fb)
    (hsome : (alookup ref k').isSome = true) :
    x.bucketStart = x.bucketEpoch := by
  simp only [distributeOne] at hx
  split_ifs at hx <;>
    first
    | exact hS _ _ hx hsome
    | · refine (aligned_foldl_aupd MIpBucket.bucketStart MIpBucket.bucketEpoch
          ref _ _ _ ?_ fb.ipBreakdown m hS hT).1 k' x hx hsome
        exact fun e x => ⟨rfl, rfl⟩

theorem foldl_distributeOne_aligned (ref : List ((Str × ℤ) × MIpBucket))
    (w : ℤ) :
    ∀ (fbs : List UserBucket) (m : List ((Str × ℤ) × MIpBucket)),
      (∀ k' x, (k', x) ∈ m → (alookup ref k').isSome = true →
          x.bucketStart = x.bucketEpoch) →
      (∀ k', alookup m k' = none → alookup ref k' = none) →
      ∀ k' x, (k', x) ∈ fbs.foldl (distributeOne w) m →
        (alookup ref k').isSome = true → x.bucketStart = x.bucketEpoch := by
  intro fbs
  induction fbs with
  | nil => exact fun m hS hT => hS
  | cons fb t ih =>
    intro m hS hT
    simp only [List.foldl_cons]
    exact ih (distributeOne w m fb)
      (fun k' x hx hsome => mem_distributeOne_aligned ref w fb m hS hT k' x hx hsome)
      (fun k' hnone => hT k' (alookup_distributeOne_none w fb m k' hnone))

/-- `snapshot` persists an aligned state: the persisted IP map is the
distributed map restricted to previously present keys, and distribution
only ever mutates `estimated_bytes` of those. -/
theorem alignedState_snapshot (now : ℤ) (st : AggState)
    (h : alignedState st) : alignedState (snapshotFn now st).2 := by
  obtain ⟨hu, hi⟩ := h
  constructor
  · intro k b hb
    exact hu k b (List.mem_filter.mp hb).1
  · intro k b hb
    have hb' := List.mem_filter.mp hb
    refine foldl_distributeOne_aligned
      (purgeLocked (bucketEpoch st.bucketSeconds (now - st.retention)) st).ipState
      st.bucketSeconds
      ((purgeLocked (bucketEpoch st.bucketSeconds (now - st.retention))
          st).userState.map (fun p => freezeUser p.2))
      (purgeLocked (bucketEpoch st.bucketSeconds (now - st.retention)) st).ipState
      ?_ ?_ k b hb'.1 hb'.2
    · intro k' x hx hsome
      exact hi k' x (List.mem_filter.mp hx).1
    · exact fun k' hnone => hnone

/-- Generic `setdefault`-fold: a lower bound on a bucket field is
preserved when the mutator preserves the field and every default
satisfies the bound. -/
theorem foldl_aupd_start {κ γ : Type} [DecidableEq κ] (c : ℤ)
    (F : γ → MIpBucket → MIpBucket) (D : γ → MIpBucket) (K : γ → κ)
    (hF : ∀ e x, (F e x).bucketStart = x.bucketStart)
    (hD : ∀ e, c ≤ (D e).bucketStart) :
    ∀ (entries : List γ) (m : List (κ × MIpBucket)),
      (∀ p ∈ m, c ≤ p.2.bucketStart) →
      ∀ p ∈ entries.foldl (fun m e => aupd (F e) (D e) m (K e)) m,
        c ≤ p.2.bucketStart := by
  intro entries
  induction entries with
  | nil => exact fun m hm => hm
  | cons e t ih =>
    intro m hm
    simp only [List.foldl_cons]
    refine ih _ ?_
    intro p hp
    rcases mem_aupd (F e) (D e) m (K e) p hp with hmem | ⟨-, w, hw, hval⟩
    · exact hm _ hmem
    · rw [hval, hF e w]
      rcases hw with rfl | hw
      · exact hD e
      · exact hm _ hw

theorem distributeOne_start (w c : ℤ) (fb : UserBucket)
    (hfb : c ≤ fb.bucketStart) (m : List ((Str × ℤ) × MIpBucket))
    (hm : ∀ p ∈ m, c ≤ p.2.bucketStart) :
    ∀ p ∈ distributeOne w m fb, c ≤ p.2.bucketStart := by
  intro p hp
  simp only [distributeOne] at hp
  split_ifs at hp <;>
    first
    | exact hm _ hp
    | · refine foldl_aupd_start c _ _ _ ?_ ?_ fb.ipBreakdown m hm p hp
        · exact fun e x => rfl
        · exact fun e => hfb

theorem foldl_distributeOne_start (w c : ℤ) :
    ∀ (fbs : List UserBucket) (m : List ((Str × ℤ) × MIpBucket)),
      (∀ fb ∈ fbs, c ≤ fb.bucketStart) →
      (∀ p ∈ m, c ≤ p.2.bucketStart) →
      ∀ p ∈ fbs.foldl (distributeOne w) m, c ≤ p.2.bucketStart := by
  intro fbs
  induction fbs with
  | nil => exact fun m _ hm => hm
  | cons fb t ih =>
    intro m hfbs hm
    simp only [List.foldl_cons]
    exact ih _ (fun x hx => hfbs x (List.mem_cons_of_mem _ hx))
      (distributeOne_start w c fb (hfbs fb (List.mem_cons_self _ _)) m hm)

/-- Every IP bucket frozen into snapshot output has its start at or above
the purge cutoff, provided the state is aligned: surviving IP buckets
have `epoch = start ≥ cutoff`, and entries freshly created by the
distribution inherit `bucket_start` from a surviving user bucket. -/
theorem snapshot_ips_start (now : ℤ) (st : AggState) (h : alignedState st) :
    ∀ fb ∈ (snapshotFn now st).1.ips,
      bucketEpoch st.bucketSeconds (now - st.retention) ≤ fb.bucketStart := by
  intro fb hfb
  simp only [snapshotFn] at hfb
  rw [mem_sortOrd] at hfb
  obtain ⟨p, hp, hfp⟩ := List.mem_map.mp hfb
  have hstart :
      bucketEpoch st.bucketSeconds (now - st.retention) ≤ p.2.bucketStart := by
    refine foldl_distributeOne_start st.bucketSeconds _ _ _ ?_ ?_ p hp
    · intro ub hub
      obtain ⟨q, hq, hqf⟩ := List.mem_map.mp hub
      have hq' := List.mem_filter.mp hq
      have hle : bucketEpoch st.bucketSeconds (now - st.retention) ≤
          q.2.bucketEpoch := of_decide_eq_true hq'.2
      have ha : q.2.bucketStart = q.2.bucketEpoch := h.1 q.1 q.2 hq'.1
      rw [← hqf]
      show bucketEpoch st.bucketSeconds (now - st.retention) ≤ q.2.bucketStart
      rw [ha]
      exact hle
    · intro p' hp'
      have hp'' := List.mem_filter.mp hp'
      have hle : bucketEpoch st.bucketSeconds (now - st.retention) ≤
          p'.2.bucketEpoch := of_decide_eq_true hp''.2
      have ha : p'.2.bucketStart = p'.2.bucketEpoch := h.2 p'.1 p'.2 hp''.1
      rw [ha]
      exact hle
  rw [← hfp]
  exact hstart

/-- Every user bucket frozen into snapshot output has its start at or
above the purge cutoff, provided the state is aligned. -/
theorem snapshot_users_start (now : ℤ) (st : AggState) (h : alignedState st) :
    ∀ fb ∈ (snapshotFn now st).1.users,
      bucketEpoch st.bucketSeconds (now - st.retention) ≤ fb.bucketStart := by
  intro fb hfb
  simp only [snapshotFn] at hfb
  rw [mem_sortOrd] at hfb
  obtain ⟨q, hq, hqf⟩ := List.mem_map.mp hfb
  have hq' := List.mem_filter.mp hq
  have hle : bucketEpoch st.bucketSeconds (now - st.retention) ≤
      q.2.bucketEpoch := of_decide_eq_true hq'.2
  have ha : q.2.bucketStart = q.2.bucketEpoch := h.1 q.1 q.2 hq'.1
  rw [← hqf]
  show bucketEpoch st.bucketSeconds (now - st.retention) ≤ q.2.bucketStart
  rw [ha]
  exact hle

/-! ## Claim C7 — retention-based purge -/

/-- **C7.** `purge_expired(as_of)` keeps exactly the buckets (user and IP)
whose epoch is at least the cutoff `bucket_epoch(as_of − retention)`; any
bucket whose epoch end (`epoch + width`) plus the retention lies before
`as_of` is strictly below the cutoff, hence evicted; `snapshot(now)`
exports exactly the user buckets surviving the same purge at `now`; on an
aligned state (`bucket_start = bucket_epoch` — an invariant of every
state the aggregator builds, per the last conjunct) every user *and IP*
bucket appearing in snapshot output has `bucket_start` at or above that
cutoff, so an expired bucket is absent from the state and from all
subsequent snapshot output; and alignment holds initially and is
preserved by every record operation, by the purge, and by the state
`snapshot` persists. -/
theorem purge_retention_spec :
    (∀ st asOf k b, (k, b) ∈ (purgeExpired asOf st).userState ↔
        ((k, b) ∈ st.userState ∧
          bucketEpoch st.bucketSeconds (asOf - st.retention) ≤ b.bucketEpoch)) ∧
    (∀ st asOf k b, (k, b) ∈ (purgeExpired asOf st).ipState ↔
        ((k, b) ∈ st.ipState ∧
          bucketEpoch st.bucketSeconds (asOf - st.retention) ≤ b.bucketEpoch)) ∧
    (∀ w r epoch asOf : ℤ, 0 < w → epoch + w + r < asOf →
        epoch < bucketEpoch w (asOf - r)) ∧
    (∀ now st, (snapshotFn now st).1.users =
        sortOrd userBucketLt
          ((purgeExpired now st).userState.map (fun p => freezeUser p.2))) ∧
    (∀ now st, alignedState st →
        (∀ fb ∈ (snapshotFn now st).1.users,
            bucketEpoch st.bucketSeconds (now - st.retention) ≤
              fb.bucketStart) ∧
        (∀ fb ∈ (snapshotFn now st).1.ips,
            bucketEpoch st.bucketSeconds (now - st.retention) ≤
              fb.bucketStart)) ∧
    (∀ w r : ℤ, alignedState (AggState.mk w r [] [] [])) ∧
    (∀ evs st, alignedState st → alignedState (recordLogEvents evs st)) ∧
    (∀ ts cs st, alignedState st →
        alignedState (recordUserCounters ts cs st)) ∧
    (∀ ts cs st, alignedState st → alignedState (recordIpCounters ts cs st)) ∧
    (∀ asOf st, alignedState st → alignedState (purgeExpired asOf st)) ∧
    (∀ now st, alignedState st → alignedState (snapshotFn now st).2) := by
  refine ⟨mem_purgeExpired_user, mem_purgeExpired_ip, ?_, fun now st => rfl,
    fun now st h => ⟨snapshot_users_start now st h, snapshot_ips_start now st h⟩,
    fun w r => ⟨fun k b hb => absurd hb (List.not_mem_nil _),
      fun k b hb => absurd hb (List.not_mem_nil _)⟩,
    alignedState_recordLogEvents, alignedState_recordUserCounters,
    alignedState_recordIpCounters, alignedState_purgeExpired,
    alignedState_snapshot⟩
  · intro w r epoch asOf hw h
    unfold bucketEpoch
    have h1 := Int.ediv_add_emod (asOf - r) w
    have h2 := Int.emod_lt_of_pos (asOf - r) hw
    have h3 := Int.emod_nonneg (asOf - r) (ne_of_gt hw)
    have h4 : (asOf - r).ediv w * w = w * ((asOf - r) / w) := mul_comm _ _
    omega

/-- Closed witness for `purge_retention_spec`: the epoch-cutoff implication
at concrete numbers, and the IP-side output bound at the concrete state
`c1State` (alignment obtained from the reachability conjuncts). -/
theorem purge_retention_witness :
    (3 : ℤ) < bucketEpoch 10 70 ∧
    ∀ fb ∈ (snapshotFn 100 c1State).1.ips,
      bucketEpoch (10 : ℤ) (100 - 1000000000) ≤ fb.bucketStart := by
  constructor
  · exact purge_retention_spec.2.2.1 10 50 3 120 (by decide) (by decide)
  · have h0 : alignedState (AggState.mk 10 1000000000 [] [] []) :=
      purge_retention_spec.2.2.2.2.2.1 10 1000000000
    have h1 : alignedState
        (recordLogEvents [c1Event] (AggState.mk 10 1000000000 [] [] [])) :=
      purge_retention_spec.2.2.2.2.2.2.1 [c1Event] _ h0
    have h2 : alignedState
        (recordUserCounters 5 [("u".toList, 0, 0)]
          (recordLogEvents [c1Event] (AggState.mk 10 1000000000 [] [] []))) :=
      purge_retention_spec.2.2.2.2.2.2.2.1 5 [("u".toList, 0, 0)] _ h1
    have h3 : alignedState c1State :=
      purge_retention_spec.2.2.2.2.2.2.2.1 6 [("u".toList, 40, 60)] _ h2
    exact (purge_retention_spec.2.2.2.2.1 100 c1State h3).2

/-! ## Claim C3 — delta computation in `record_user_counters` -/

/-- `up_bytes` of the user bucket at `(email, epoch)`, zero when absent. -/
def bucketUpBytes (m : List ((Str × ℤ) × MUserBucket)) (email : Str)
    (epoch : ℤ) : ℤ :=
  ((alookup m (email, epoch)).map MUserBucket.upBytes).getD 0

/-- `down_bytes` of the user bucket at `(email, epoch)`, zero when absent. -/
def bucketDownBytes (m : List ((Str × ℤ) × MUserBucket)) (email : Str)
    (epoch : ℤ) : ℤ :=
  ((alookup m (email, epoch)).map MUserBucket.downBytes).getD 0

theorem userCounterStep_other (epoch start : ℤ) (st : AggState)
    (e : Str × ℤ × ℤ) (email : Str) (h : e.1 ≠ email) :
    alookup (userCounterStep epoch start st e).userTotals email =
      alookup st.userTotals email ∧
    ∀ ep, alookup (userCounterStep epoch start st e).userState (email, ep) =
      alookup st.userState (email, ep) := by
  have hkey : ∀ ep : ℤ, (e.1, epoch) ≠ (email, ep) := by
    intro ep hc
    exact h (congrArg Prod.fst hc)
  simp only [userCounterStep]
  split_ifs with hz
  · exact ⟨alookup_aset_ne _ _ _ _ h, fun ep => rfl⟩
  · exact ⟨alookup_aset_ne _ _ _ _ h,
      fun ep => alookup_aupd_ne _ _ _ _ _ (hkey ep)⟩

theorem userCounterStep_self (epoch start : ℤ) (st : AggState) (email : Str)
    (up down : ℤ) :
    alookup (userCounterStep epoch start st (email, up, down)).userTotals
        email = some (up, down) ∧
    bucketUpBytes (userCounterStep epoch start st (email, up, down)).userState
        email epoch =
      bucketUpBytes st.userState email epoch +
        computeDelta up ((alookup st.userTotals email).getD (up, down)).1 ∧
    bucketDownBytes
        (userCounterStep epoch start st (email, up, down)).userState email
        epoch =
      bucketDownBytes st.userState email epoch +
        computeDelta down ((alookup st.userTotals email).getD (up, down)).2 := by
  simp only [userCounterStep]
  split_ifs with hz
  · refine ⟨alookup_aset_self _ _ _, ?_, ?_⟩
    · rw [hz.1]
      show bucketUpBytes st.userState email epoch =
        bucketUpBytes st.userState email epoch + 0
      omega
    · rw [hz.2]
      show bucketDownBytes st.userState email epoch =
        bucketDownBytes st.userState email epoch + 0
      omega
  · refine ⟨alookup_aset_self _ _ _, ?_, ?_⟩
    · unfold bucketUpBytes
      rw [alookup_aupd_self]
      cases halo : alookup st.userState (email, epoch) with
      | none => simp [newUserBucket]
      | some b => simp
    · unfold bucketDownBytes
      rw [alookup_aupd_self]
      cases halo : alookup st.userState (email, epoch) with
      | none => simp [newUserBucket]
      | some b => simp

theorem foldl_userCounterStep_other (epoch start : ℤ) (email : Str) :
    ∀ (evs : List (Str × ℤ × ℤ)) (st : AggState),
      email ∉ evs.map Prod.fst →
      alookup (evs.foldl (userCounterStep epoch start) st).userTotals email =
        alookup st.userTotals email ∧
      ∀ ep,
        alookup (evs.foldl (userCounterStep epoch start) st).userState
            (email, ep) =
          alookup st.userState (email, ep)
  | [], st, _ => ⟨rfl, fun _ => rfl⟩
  | e :: evs, st, h => by
    have hne : e.1 ≠ email := by
      intro hc
      exact h (by rw [← hc]; exact List.mem_cons_self _ _)
    have hrest : email ∉ evs.map Prod.fst := fun hm =>
      h (List.mem_cons_of_mem _ hm)
    have ih := foldl_userCounterStep_other epoch start email evs
      (userCounterStep epoch start st e) hrest
    have hstep := userCounterStep_other epoch start st e email hne
    exact ⟨ih.1.trans hstep.1, fun ep => (ih.2 ep).trans (hstep.2 ep)⟩

theorem foldl_userCounterStep_spec (epoch start : ℤ) :
    ∀ (counters : List (Str × ℤ × ℤ)) (st : AggState) (email : Str)
      (up down : ℤ),
      (counters.map Prod.fst).Nodup → (email, up, down) ∈ counters →
      alookup
          (counters.foldl (userCounterStep epoch start) st).userTotals email =
        some (up, down) ∧
      bucketUpBytes (counters.foldl (userCounterStep epoch start) st).userState
          email epoch =
        bucketUpBytes st.userState email epoch +
          computeDelta up ((alookup st.userTotals email).getD (up, down)).1 ∧
      bucketDownBytes
          (counters.foldl (userCounterStep epoch start) st).userState email
          epoch =
        bucketDownBytes st.userState email epoch +
          computeDelta down ((alookup st.userTotals email).getD (up, down)).2
  | [], _, _, _, _, _, hmem => absurd hmem (List.not_mem_nil _)
  | e :: evs, st, email, up, down, hnodup, hmem => by
    rw [List.map_cons, List.nodup_cons] at hnodup
    rw [List.foldl_cons]
    rcases List.mem_cons.mp hmem with he | he
    · subst he
      have hnotin : email ∉ evs.map Prod.fst := hnodup.1
      have hpres := foldl_userCounterStep_other epoch start email evs
        (userCounterStep epoch start st (email, up, down)) hnotin
      have hself := userCounterStep_self epoch start st email up down
      refine ⟨hpres.1.trans hself.1, ?_, ?_⟩
      · rw [show bucketUpBytes
            (evs.foldl (userCounterStep epoch start)
              (userCounterStep epoch start st (email, up, down))).userState
            email epoch =
          bucketUpBytes
            (userCounterStep epoch start st (email, up, down)).userState email
            epoch from by unfold bucketUpBytes; rw [hpres.2 epoch]]
        exact hself.2.1
      · rw [show bucketDownBytes
            (evs.foldl (userCounterStep epoch start)
              (userCounterStep epoch start st (email, up, down))).userState
            email epoch =
          bucketDownBytes
            (userCounterStep epoch start st (email, up, down)).userState email
            epoch from by unfold bucketDownBytes; rw [hpres.2 epoch]]
        exact hself.2.2
    · have hne : e.1 ≠ email := by
        intro hc
        exact hnodup.1 (hc ▸ List.mem_map_of_mem Prod.fst he)
      have ih := foldl_userCounterStep_spec epoch start evs
        (userCounterStep epoch start st e) email up down hnodup.2 he
      have hstep := userCounterStep_other epoch start st e email hne
      refine ⟨ih.1, ?_, ?_⟩
      · have h2 := ih.2.1
        rw [show bucketUpBytes
            (userCounterStep epoch start st e).userState email epoch =
          bucketUpBytes st.userState email epoch from by
            unfold bucketUpBytes; rw [hstep.2 epoch]] at h2
        rw [hstep.1] at h2
        exact h2
      · have h2 := ih.2.2
        rw [show bucketDownBytes
            (userCounterStep epoch start st e).userState email epoch =
          bucketDownBytes st.userState email epoch from by
            unfold bucketDownBytes; rw [hstep.2 epoch]] at h2
        rw [hstep.1] at h2
        exact h2

/-- **C3.** The delta rule of `record_user_counters`: for non-negative
cumulative counters, `current ≥ previous` gives `current − previous`,
`current < previous` (reset) gives `current`, and the delta is never
negative; a first observation seeds the baseline with the reported value
(so its delta is `computeDelta c c = 0`); and for every email in a poll
(unique keys, as in a dict) the stored baseline afterwards is the latest
reported value while the bucket's byte fields grow by exactly the computed
deltas relative to the baseline before the call. -/
theorem recordUserCounters_delta_spec :
    (∀ c p : ℤ, 0 ≤ c → 0 ≤ p →
        (p ≤ c → computeDelta c p = c - p) ∧
        (c < p → computeDelta c p = c) ∧
        0 ≤ computeDelta c p) ∧
    (∀ c : ℤ, computeDelta c c = 0) ∧
    (∀ st ts counters email up down,
        (counters.map Prod.fst).Nodup → (email, up, down) ∈ counters →
        alookup (recordUserCounters ts counters st).userTotals email =
          some (up, down) ∧
        bucketUpBytes (recordUserCounters ts counters st).userState email
            (bucketEpoch st.bucketSeconds ts) =
          bucketUpBytes st.userState email (bucketEpoch st.bucketSeconds ts) +
            computeDelta up ((alookup st.userTotals email).getD (up, down)).1 ∧
        bucketDownBytes (recordUserCounters ts counters st).userState email
            (bucketEpoch st.bucketSeconds ts) =
          bucketDownBytes st.userState email (bucketEpoch st.bucketSeconds ts) +
            computeDelta down
              ((alookup st.userTotals email).getD (up, down)).2) := by
  refine ⟨?_, ?_, ?_⟩
  · intro c p hc hp
    unfold computeDelta
    rw [max_eq_right hc, max_eq_right hp]
    refine ⟨fun h => if_pos h, fun h => if_neg (not_le.mpr h), ?_⟩
    show (0 : ℤ) ≤ if p ≤ c then c - p else c
    split_ifs <;> omega
  · intro c
    simp [computeDelta]
  · intro st ts counters email up down h1 h2
    exact foldl_userCounterStep_spec (bucketEpoch st.bucketSeconds ts)
      (bucketEpoch st.bucketSeconds ts) counters st email up down h1 h2

/-- Closed witness for `recordUserCounters_delta_spec`. -/
theorem recordUserCounters_delta_witness :
    computeDelta 5 3 = 5 - 3 ∧ computeDelta 3 5 = 3 ∧
    (0 : ℤ) ≤ computeDelta 3 5 ∧
    alookup (recordUserCounters 5 [("u".toList, 7, 9)]
        (AggState.mk 10 100 [] [] [])).userTotals "u".toList = some (7, 9) :=
  ⟨(recordUserCounters_delta_spec.1 5 3 (by decide) (by decide)).1 (by decide),
   (recordUserCounters_delta_spec.1 3 5 (by decide) (by decide)).2.1 (by decide),
   (recordUserCounters_delta_spec.1 3 5 (by decide) (by decide)).2.2,
   (recordUserCounters_delta_spec.2.2 (AggState.mk 10 100 [] [] []) 5
      [("u".toList, 7, 9)] "u".toList 7 9 (by decide) (by decide)).1⟩

/-! ## Claim C10 — `conn_tcp + conn_udp = conn_total` -/

/-- The per-event user-bucket mutation adds 1 to `conn_total` and 1 to
exactly one of `conn_tcp`/`conn_udp` (udp only for transport `udp`,
everything else counted as tcp), leaving the other unchanged. -/
theorem userEventUpd_conn (ev : LogEvent) (hostLabel : Str) (b : MUserBucket) :
    (userEventUpd ev hostLabel b).connTotal = b.connTotal + 1 ∧
    (lowerStr ev.transport = "udp".toList →
        (userEventUpd ev hostLabel b).connUdp = b.connUdp + 1 ∧
        (userEventUpd ev hostLabel b).connTcp = b.connTcp) ∧
    (lowerStr ev.transport ≠ "udp".toList →
        (userEventUpd ev hostLabel b).connTcp = b.connTcp + 1 ∧
        (userEventUpd ev hostLabel b).connUdp = b.connUdp) := by
  simp only [userEventUpd]
  split_ifs <;>
    refine ⟨rfl, fun hu => ?_, fun hn => ?_⟩ <;>
      simp_all

/-- `conn_tcp + conn_udp = conn_total` for every live user bucket. -/
def connInvariant (st : AggState) : Prop :=
  ∀ k b, (k, b) ∈ st.userState → b.connTcp + b.connUdp = b.connTotal

theorem userEventUpd_conn_sum (ev : LogEvent) (hostLabel : Str)
    (b : MUserBucket) (h : b.connTcp + b.connUdp = b.connTotal) :
    (userEventUpd ev hostLabel b).connTcp + (userEventUpd ev hostLabel b).connUdp =
      (userEventUpd ev hostLabel b).connTotal := by
  obtain ⟨ht, hu, hc⟩ := userEventUpd_conn ev hostLabel b
  by_cases hudp : lowerStr ev.transport = "udp".toList
  · obtain ⟨h1, h2⟩ := hu hudp
    omega
  · obtain ⟨h1, h2⟩ := hc hudp
    omega

theorem connInvariant_step (w : ℤ) (st : AggState) (ev : LogEvent)
    (h : connInvariant st) : connInvariant (logEventStep w st ev) := by
  intro k b hb
  simp only [logEventStep] at hb
  split_ifs at hb <;>
    first
    | exact h k b hb
    | · rcases mem_aupd _ _ _ _ _ hb with hmem | ⟨-, bw, hbw, hval⟩
        · exact h k b hmem
        · have hval' : b = _ := hval
          rw [hval']
          rcases hbw with rfl | hbw
          · exact userEventUpd_conn_sum _ _ _ (by simp [newUserBucket])
          · exact userEventUpd_conn_sum _ _ _ (h _ _ hbw)

theorem connInvariant_events (evs : List LogEvent) :
    ∀ (w : ℤ) (st : AggState), connInvariant st →
      connInvariant (evs.foldl (logEventStep w) st) := by
  induction evs with
  | nil => exact fun w st h => h
  | cons e t ih =>
    intro w st h
    exact ih w _ (connInvariant_step w st e h)

theorem connInvariant_record (evs : List LogEvent) (st : AggState)
    (h : connInvariant st) : connInvariant (recordLogEvents evs st) :=
  connInvariant_events evs st.bucketSeconds st h

/-- **C10.** Every user bucket observed in any snapshot of a state built by
any sequence of `record_log_events` calls satisfies
`conn_tcp + conn_udp = conn_total`; each event with a non-empty email
updates its bucket by incrementing `conn_total` and exactly one of
`conn_tcp`/`conn_udp`, with every transport other than `udp` (including
`unix`, `tcp`, and empty) counted as tcp. -/
theorem connCounts_spec :
    (∀ (w r : ℤ) (batches : List (List LogEvent)) (now : ℤ) (fb : UserBucket),
        fb ∈ (snapshotFn now (batches.foldl (fun st evs => recordLogEvents evs st)
            (AggState.mk w r [] [] []))).1.users →
        fb.connTcp + fb.connUdp = fb.connTotal) ∧
    (∀ ev hostLabel b,
        (userEventUpd ev hostLabel b).connTotal = b.connTotal + 1 ∧
        (lowerStr ev.transport = "udp".toList →
            (userEventUpd ev hostLabel b).connUdp = b.connUdp + 1 ∧
            (userEventUpd ev hostLabel b).connTcp = b.connTcp) ∧
        (lowerStr ev.transport ≠ "udp".toList →
            (userEventUpd ev hostLabel b).connTcp = b.connTcp + 1 ∧
            (userEventUpd ev hostLabel b).connUdp = b.connUdp)) ∧
    (∀ st ev, ev.email ≠ [] →
        alookup (logEventStep st.bucketSeconds st ev).userState
            (ev.email, bucketEpoch st.bucketSeconds ev.timestamp) =
          some (userEventUpd ev
            (if ¬ev.targetHost.isEmpty then ev.targetHost else ev.target)
            ((alookup st.userState
                (ev.email, bucketEpoch st.bucketSeconds ev.timestamp)).getD
              (newUserBucket ev.email
                (bucketEpoch st.bucketSeconds ev.timestamp)
                (bucketEpoch st.bucketSeconds ev.timestamp))))) := by
  refine ⟨?_, userEventUpd_conn, ?_⟩
  · intro w r batches now fb hfb
    have hinv : connInvariant
        (batches.foldl (fun st evs => recordLogEvents evs st)
          (AggState.mk w r [] [] [])) := by
      have base : connInvariant (AggState.mk w r [] [] []) := by
        intro k b hb
        exact absurd hb (List.not_mem_nil _)
      clear hfb
      induction batches generalizing w r with
      | nil => exact base
      | cons evs t ih =>
        rw [List.foldl_cons]
        have h1 : connInvariant
            (recordLogEvents evs (AggState.mk w r [] [] [])) :=
          connInvariant_record evs _ base
        -- fold the rest over an arbitrary invariant-satisfying state
        clear base ih
        generalize hst : recordLogEvents evs (AggState.mk w r [] [] []) = st₁
          at h1
        clear hst
        induction t generalizing st₁ with
        | nil => exact h1
        | cons evs₂ t₂ ih₂ =>
          rw [List.foldl_cons]
          exact ih₂ _ (connInvariant_record evs₂ _ h1)
    rw [show (snapshotFn now (batches.foldl (fun st evs => recordLogEvents evs st)
        (AggState.mk w r [] [] []))).1.users =
      sortOrd userBucketLt
        ((purgeExpired now (batches.foldl (fun st evs => recordLogEvents evs st)
            (AggState.mk w r [] [] []))).userState.map
          (fun p => freezeUser p.2)) from rfl] at hfb
    rw [mem_sortOrd] at hfb
    obtain ⟨p, hp, hfp⟩ := List.mem_map.mp hfb
    obtain ⟨k, b⟩ := p
    rw [mem_purgeExpired_user
      (batches.foldl (fun st evs => recordLogEvents evs st)
        (AggState.mk w r [] [] [])) now k b] at hp
    have := hinv k b hp.1
    rw [← hfp]
    exact this
  · intro st ev he
    have he' : ¬ev.email.isEmpty := by
      cases hev : ev.email with
      | nil => exact absurd hev he
      | cons c t => simp [hev]
    simp only [logEventStep, if_pos he']
    split_ifs <;> exact alookup_aupd_self _ _ _ _

/-- The single user bucket frozen by the witness snapshot below. -/
def c10Bucket : UserBucket :=
  ⟨"u".toList, 0, 0, 0, 1, 1, 0, 1, [("1.2.3.4".toList, 1)],
   [("h".toList, 1)], 0⟩

/-- Closed witness for `connCounts_spec`. -/
theorem connCounts_witness :
    c10Bucket.connTcp + c10Bucket.connUdp = c10Bucket.connTotal ∧
    alookup (logEventStep 10 (AggState.mk 10 1000000000 [] [] [])
        c1Event).userState ("u".toList, 0) =
      some (userEventUpd c1Event "h".toList (newUserBucket "u".toList 0 0)) := by
  constructor
  · exact connCounts_spec.1 10 1000000000 [[c1Event]] 100 c10Bucket (by decide)
  · exact connCounts_spec.2.2 (AggState.mk 10 1000000000 [] [] []) c1Event
      (by decide)

end WatchDog
